import Mathlib

/-!
# Physical memory management of the mCertiKOS lab kernel

A shallow embedding of the layers `MATInit` (`pmem_init`), `MATOp`
(`palloc`, `pfree`), `MContainer` (`container_*`) and `MPTIntro` (page
directory and page table entries), followed by theorems about them.

Machine integers are natural numbers (resp. integers for the `int` fields of
`struct SContainer`); `unsigned int` arithmetic that can wrap is reduced
modulo `U32` explicitly.  All global variables of the C code are fields of one
state record `KState` which every operation takes and returns; the page
table layer has its own record `PTState`, in which a raw pointer is resolved
to the array cell or memory word that lies at its address.
-/

namespace MCertiKOS

/-! ## Constants -/

def PAGESIZE : Nat := 4096
def VM_USERLO : Nat := 0x40000000
def VM_USERHI : Nat := 0xF0000000
def VM_USERLO_PI : Nat := VM_USERLO / PAGESIZE
def VM_USERHI_PI : Nat := VM_USERHI / PAGESIZE

/-- Modulus of `unsigned int` arithmetic. -/
def U32 : Nat := 4294967296

/-- Conversion of an `unsigned int` value to `int` (two's complement). -/
def toInt32 (n : Nat) : Int :=
  if n % U32 < 2147483648 then ((n % U32 : Nat) : Int) else ((n % U32 : Nat) : Int) - 4294967296

/-- Conversion of an `int` value to `unsigned int`. -/
def toU32 (z : Int) : Nat := (z % 4294967296).toNat

/-- The value an `int` field holds after an arithmetic result `z` is stored in
it: the result reduced to the 32-bit two's complement range. -/
def wrapInt32 (z : Int) : Int := toInt32 (toU32 z)

/-! ## Data model -/

/-- Modelled from the spec: one record of the allocation table kept by the
`MATIntro` layer (permission level and allocated flag of one physical page). -/
structure ATStruct where
  perm : Nat
  allocated : Nat
deriving DecidableEq

/-- The `struct SContainer` of `MContainer.c`; all five fields are `int`. -/
structure SContainer where
  quota : Int
  usage : Int
  parent : Int
  nchildren : Int
  used : Int
deriving DecidableEq

/-- Modelled from the spec: one row of the firmware memory map
(`start`, `length`, `usable`), read through `get_mms`, `get_mml`, `is_usable`. -/
structure MemRow where
  start : Nat
  length : Nat
  usable : Bool
deriving DecidableEq

/-- The global variables of the three layers: `NUM_PAGES` and `AT` of
`MATIntro`, the static `pointer` of `MATOp.c`, the static `CONTAINER` array of
`MContainer.c`.  Tables are total maps from indices to records. -/
structure KState where
  NUM_PAGES : Nat
  AT : Nat → ATStruct
  pointer : Nat
  CONTAINER : Nat → SContainer

/-- State of the globals before any code has run: static storage is
zero-filled (`NUM_PAGES = 0`, every table record zero), and
`pointer = VM_USERLO_PI` as initialised in `MATOp.c`. -/
def boot : KState where
  NUM_PAGES := 0
  AT := fun _ => ⟨0, 0⟩
  pointer := VM_USERLO_PI
  CONTAINER := fun _ => ⟨0, 0, 0, 0, 0⟩

/-! ## Imported primitives (layer `MATIntro` and the memory map) -/

/-- Modelled from the spec: `get_nps` of `MATIntro`, the stored page count. -/
def get_nps (s : KState) : Nat := s.NUM_PAGES

/-- Modelled from the spec: `set_nps` of `MATIntro`. -/
def set_nps (nps : Nat) (s : KState) : KState := { s with NUM_PAGES := nps }

/-- Modelled from the spec: `at_is_norm` of `MATIntro`; a permission above 1
is Normal (`MATInit.c`: "0: Reserved by the BIOS. 1: Kernel only. >1: Normal"). -/
def at_is_norm (s : KState) (i : Nat) : Nat := if 1 < (s.AT i).perm then 1 else 0

/-- Modelled from the spec: `at_set_perm` of `MATIntro`; it stores the
permission and also marks the page as unallocated. -/
def at_set_perm (i perm : Nat) (s : KState) : KState :=
  { s with AT := Function.update s.AT i ⟨perm, 0⟩ }

/-- Modelled from the spec: `at_is_allocated` of `MATIntro`, 0 or 1. -/
def at_is_allocated (s : KState) (i : Nat) : Nat := if 0 < (s.AT i).allocated then 1 else 0

/-- Modelled from the spec: `at_set_allocated` of `MATIntro`; it stores the
flag and keeps the permission. -/
def at_set_allocated (i a : Nat) (s : KState) : KState :=
  { s with AT := Function.update s.AT i ⟨(s.AT i).perm, a⟩ }

/-- Modelled from the spec: `get_size`, the number of memory map rows. -/
def get_size (mm : List MemRow) : Nat := mm.length

/-- Modelled from the spec: `get_mms`, start address of row `i` as `unsigned int`. -/
def get_mms (mm : List MemRow) (i : Nat) : Nat := (mm.getD i ⟨0, 0, false⟩).start % U32

/-- Modelled from the spec: `get_mml`, length of row `i` as `unsigned int`. -/
def get_mml (mm : List MemRow) (i : Nat) : Nat := (mm.getD i ⟨0, 0, false⟩).length % U32

/-- Modelled from the spec: `is_usable`, 1 when row `i` is usable memory. -/
def is_usable (mm : List MemRow) (i : Nat) : Nat := if (mm.getD i ⟨0, 0, false⟩).usable then 1 else 0

/-! ## Control structure -/

/-- Runs `body lo`, `body (lo+1)`, ... for `n` consecutive indices. -/
def iter {σ : Type} (body : Nat → σ → σ) : Nat → Nat → σ → σ
  | _, 0, s => s
  | lo, n + 1, s => iter body (lo + 1) n (body lo s)

/-- The loop `for (i = lo; i < hi; i++) body`. -/
def forLoop {σ : Type} (lo hi : Nat) (body : Nat → σ → σ) (s : σ) : σ :=
  iter body lo (hi - lo) s

/-! ## Layer `MATInit` -/

/-- The inner `while` loop of `pmem_init` for one row: `E` is the value of
`start_address + length` (as `unsigned int`), `perm` the permission of the row. -/
def pmem_init_walk (E perm : Nat) (page_index : Nat) (s : KState) : KState :=
  if ((page_index + 1) * PAGESIZE) % U32 ≤ E then
    let s1 := if VM_USERLO_PI ≤ page_index ∧ page_index < VM_USERHI_PI
      then at_set_perm page_index perm s else s
    let p1 := (page_index + 1) % U32
    if VM_USERHI_PI ≤ p1 then s1 else pmem_init_walk E perm p1 s1
  else s
termination_by (if page_index < VM_USERHI_PI then VM_USERHI_PI - page_index else VM_USERHI_PI + 1)
decreasing_by
  rename_i h1 h2
  have h3 : (page_index + 1) % U32 < VM_USERHI_PI := Nat.lt_of_not_le h2
  clear h2 h1
  have e1 : VM_USERHI_PI = 983040 := by decide
  have e2 : U32 = 4294967296 := rfl
  simp only [e1, e2] at h3 ⊢
  split_ifs <;> omega

/-- Body of the loop over the memory map rows in `pmem_init`. -/
def pmem_init_row (mm : List MemRow) (i : Nat) (s : KState) : KState :=
  let start_address := get_mms mm i
  let length := get_mml mm i
  let perm := if is_usable mm i = 1 then 2 else 0
  let page_index := start_address / PAGESIZE
  let page_index := if (page_index * PAGESIZE) % U32 < start_address
    then (page_index + 1) % U32 else page_index
  pmem_init_walk ((start_address + length) % U32) perm page_index s

/-- The page count computed at the start of `pmem_init`. -/
def pmem_init_nps (mm : List MemRow) : Nat :=
  let total_table_row := get_size mm
  if total_table_row = 0 then 0
  else
    let start_address := get_mms mm (total_table_row - 1)
    let length := get_mml mm (total_table_row - 1)
    let last_address := (start_address + length + (U32 - 1)) % U32
    ((last_address + 1) % U32) / PAGESIZE

/-- The function `pmem_init` of `MATInit.c` (`devinit` does not touch the
modelled state; the memory map it publishes is the argument `mm`). -/
def pmem_init (mm : List MemRow) (s : KState) : KState :=
  let total_table_row := get_size mm
  let nps := pmem_init_nps mm
  let s := set_nps nps s
  let s := forLoop 0 VM_USERLO_PI (fun i s => at_set_perm i 1 s) s
  let s := forLoop VM_USERHI_PI nps (fun i s => at_set_perm i 1 s) s
  let s := forLoop VM_USERLO_PI VM_USERHI_PI (fun i s => at_set_perm i 0 s) s
  forLoop 0 total_table_row (pmem_init_row mm) s

/-! ## Layer `MATOp` -/

/-- The `while (1)` loop of `palloc`, started with loop variable `i`; `fuel`
bounds the number of iterations, and `none` means the bound was reached. -/
def palloc_loop : Nat → KState → Nat → Option (Nat × KState)
  | 0, _, _ => none
  | fuel + 1, s, i =>
    if at_is_norm s i = 1 ∧ at_is_allocated s i = 0 then
      some (i, { at_set_allocated i 1 s with pointer := (i + 1) % U32 })
    else
      let i1 := (i + 1) % U32
      let i2 := if i1 = VM_USERHI_PI then VM_USERLO_PI else i1
      if i2 = s.pointer then some (0, s) else palloc_loop fuel s i2

/-- The function `palloc` of `MATOp.c`: result and new state, or `none` when
the loop did not finish within `fuel` iterations. -/
def palloc (fuel : Nat) (s : KState) : Option (Nat × KState) :=
  if get_nps s = 0 then some (0, s) else palloc_loop fuel s s.pointer

/-- The indices at which the loop of `palloc` reads the allocation table during
its first `fuel` iterations, in order. -/
def palloc_scan : Nat → KState → Nat → List Nat
  | 0, _, _ => []
  | fuel + 1, s, i =>
    if at_is_norm s i = 1 ∧ at_is_allocated s i = 0 then [i]
    else
      let i1 := (i + 1) % U32
      let i2 := if i1 = VM_USERHI_PI then VM_USERLO_PI else i1
      if i2 = s.pointer then [i] else i :: palloc_scan fuel s i2

/-- The function `pfree` of `MATOp.c`. -/
def pfree (pfree_index : Nat) (s : KState) : KState := at_set_allocated pfree_index 0 s

/-! ## Layer `MContainer` -/

/-- Modelled from the spec: `pmem_alloc`, which `MContainer.c` imports, is the
allocation operation of the physical allocator, `palloc`. -/
def pmem_alloc (fuel : Nat) (s : KState) : Option (Nat × KState) := palloc fuel s

/-- Modelled from the spec: `pmem_free`, which `MContainer.c` imports, is the
release operation of the physical allocator, `pfree`. -/
def pmem_free (page_index : Nat) (s : KState) : KState := pfree page_index s

/-- The function `container_init` of `MContainer.c`.  The page count is read
into `total_pages` before `pmem_init` runs, as in the source. -/
def container_init (mm : List MemRow) (s : KState) : KState :=
  let total_pages := get_nps s
  let s1 := pmem_init mm s
  let available_quota := forLoop 0 total_pages
    (fun i q => if at_is_norm s1 i ≠ 0 ∧ at_is_allocated s1 i = 0 then (q + 1) % U32 else q) 0
  let real_quota := available_quota
  { s1 with CONTAINER := Function.update s1.CONTAINER 0 ⟨toInt32 real_quota, 0, 0, 0, 1⟩ }

def container_get_parent (s : KState) (id : Nat) : Nat := toU32 (s.CONTAINER id).parent
def container_get_nchildren (s : KState) (id : Nat) : Nat := toU32 (s.CONTAINER id).nchildren
def container_get_quota (s : KState) (id : Nat) : Nat := toU32 (s.CONTAINER id).quota
def container_get_usage (s : KState) (id : Nat) : Nat := toU32 (s.CONTAINER id).usage

/-- The function `container_split` of `MContainer.c`; the constants `NUM_IDS`
and `MAX_CHILDREN` come from a header and are parameters here.  The source
updates no container field. -/
def container_split (NUM_IDS MAX_CHILDREN : Nat) (id _quota : Nat) (s : KState) : Nat × KState :=
  let nc := toU32 (s.CONTAINER id).nchildren
  let child := (id * MAX_CHILDREN + 1 + nc) % U32
  if NUM_IDS ≤ child then (NUM_IDS, s) else (child, s)

/-- The function `container_alloc` of `MContainer.c`; it does not return when
the allocator does not.  `usage++` cannot overflow because it runs only when
`usage < quota`. -/
def container_alloc (fuel : Nat) (id : Nat) (s : KState) : Option (Nat × KState) :=
  if (s.CONTAINER id).usage < (s.CONTAINER id).quota then
    match pmem_alloc fuel s with
    | none => none
    | some (page_index, s1) =>
      if page_index ≠ 0 then
        let c := s1.CONTAINER id
        let c1 : SContainer := { c with usage := c.usage + 1 }
        some (page_index, { s1 with CONTAINER := Function.update s1.CONTAINER id c1 })
      else some (0, s1)
  else some (0, s)

/-- The function `container_free` of `MContainer.c`; `usage--` on the `int`
field wraps from the least `int` to the greatest. -/
def container_free (id page_index : Nat) (s : KState) : KState :=
  if at_is_allocated s page_index ≠ 0 then
    let s1 := pmem_free page_index s
    let c := s1.CONTAINER id
    let c1 : SContainer := { c with usage := wrapInt32 (c.usage - 1) }
    { s1 with CONTAINER := Function.update s1.CONTAINER id c1 }
  else s

/-! ## Specification-side notions -/

/-- Row `i` of the map covers the whole byte range of page `j`, with the end
of the row computed as the code computes it (`unsigned int` sum). -/
def covers (mm : List MemRow) (i j : Nat) : Prop :=
  get_mms mm i ≤ j * PAGESIZE ∧ (j + 1) * PAGESIZE ≤ (get_mms mm i + get_mml mm i) % U32

instance (mm : List MemRow) (i j : Nat) : Decidable (covers mm i j) := by
  unfold covers; infer_instance

/-- The last row covering page `j` among the first `n` rows exists and is usable. -/
def lastCoverUsable (mm : List MemRow) (n j : Nat) : Prop :=
  ∃ i, i < n ∧ covers mm i j ∧ is_usable mm i = 1 ∧
    ∀ k, i < k → k < n → covers mm k j → is_usable mm k = 1

/-- Page `i` is Normal and not allocated, the test made by `palloc`. -/
def isFree (s : KState) (i : Nat) : Prop := at_is_norm s i = 1 ∧ at_is_allocated s i = 0

instance (s : KState) (i : Nat) : Decidable (isFree s i) := by
  unfold isFree; infer_instance

/-- The fields of the state outside the allocation table are equal. -/
def sameRest (s t : KState) : Prop :=
  t.NUM_PAGES = s.NUM_PAGES ∧ t.pointer = s.pointer ∧ t.CONTAINER = s.CONTAINER

/-- Page count in the words of the specification: `ceil((H + 1) / PAGESIZE)`
for the highest `start + length - 1` over all rows, and 0 without rows. -/
def spec_page_count (mm : List MemRow) : Nat :=
  if mm = [] then 0
  else
    let H := (mm.map (fun r => r.start + r.length - 1)).foldl max 0
    (H + 1 + (PAGESIZE - 1)) / PAGESIZE

/-- Row `r` contains the whole byte range of page `j` (integer arithmetic). -/
def rowCovers (r : MemRow) (j : Nat) : Prop :=
  r.start ≤ j * PAGESIZE ∧ (j + 1) * PAGESIZE ≤ r.start + r.length

instance (r : MemRow) (j : Nat) : Decidable (rowCovers r j) := by
  unfold rowCovers; infer_instance

/-- Some usable row of the map contains the whole of page `j`. -/
def someRowUsable (mm : List MemRow) (j : Nat) : Prop :=
  ∃ r, r ∈ mm ∧ r.usable = true ∧ rowCovers r j

/-- Some row of the map contains the whole of page `j`, and the last such row
in map order is usable. -/
def lastRowUsable (mm : List MemRow) (j : Nat) : Prop :=
  ∃ i, i < mm.length ∧ rowCovers (mm.getD i ⟨0, 0, false⟩) j ∧
    (mm.getD i ⟨0, 0, false⟩).usable = true ∧
    ∀ k, i < k → k < mm.length → rowCovers (mm.getD k ⟨0, 0, false⟩) j →
      (mm.getD k ⟨0, 0, false⟩).usable = true

/-- Number of page indices below the page count that are Normal and unallocated. -/
def normFreeCount (s : KState) : Nat :=
  ((List.range s.NUM_PAGES).filter (fun i => decide (isFree s i))).length

/-- States reachable from `pmem_init`, run on the boot state, by calls of
`palloc` and `pfree`. -/
inductive PReach (mm : List MemRow) : KState → Prop
  | init : PReach mm (pmem_init mm boot)
  | alloc {s s' : KState} {fuel r : Nat} :
      PReach mm s → palloc fuel s = some (r, s') → PReach mm s'
  | free {s : KState} (i : Nat) : PReach mm s → PReach mm (pfree i s)

/-- A state on which `container_init` may start: no page outside the user
range is Normal or marked allocated, and no container other than the root,
which `container_init` overwrites, has usage or quota.  The boot state is one,
and so is every state the allocator reaches from it through `pmem_init`,
`palloc` and `pfree` (the page count is then already set). -/
def preInit (s : KState) : Prop :=
  (∀ j, j < VM_USERLO_PI ∨ VM_USERHI_PI ≤ j → (s.AT j).perm ≤ 1 ∧ (s.AT j).allocated = 0) ∧
  (∀ id, id ≠ 0 → (s.CONTAINER id).usage = 0 ∧ (s.CONTAINER id).quota = 0)

/-- States reachable from `container_init`, run on the state `s0`, by calls of
`container_alloc`, `container_free` and `container_split` with any container
ids and page indices. -/
inductive CReach (NUM_IDS MAX_CHILDREN : Nat) (mm : List MemRow) (s0 : KState) : KState → Prop
  | init : CReach NUM_IDS MAX_CHILDREN mm s0 (container_init mm s0)
  | alloc {s s' : KState} {fuel id r : Nat} :
      CReach NUM_IDS MAX_CHILDREN mm s0 s → container_alloc fuel id s = some (r, s') →
      CReach NUM_IDS MAX_CHILDREN mm s0 s'
  | free {s : KState} (id page_index : Nat) :
      CReach NUM_IDS MAX_CHILDREN mm s0 s →
      CReach NUM_IDS MAX_CHILDREN mm s0 (container_free id page_index s)
  | split {s : KState} (id quota : Nat) :
      CReach NUM_IDS MAX_CHILDREN mm s0 s →
      CReach NUM_IDS MAX_CHILDREN mm s0 (container_split NUM_IDS MAX_CHILDREN id quota s).2

/-- The state `palloc` leaves when it hands out page `k`: the allocated flag of
`k` is set and the cursor is `k + 1`. -/
def allocState (s : KState) (k : Nat) : KState :=
  { at_set_allocated k 1 s with pointer := (k + 1) % U32 }

/-- Runs `n` consecutive calls of `palloc`, each with the iteration bound `fuel`. -/
def palloc_times (fuel : Nat) : Nat → KState → Option KState
  | 0, s => some s
  | n + 1, s =>
    match palloc fuel s with
    | none => none
    | some (_, s1) => palloc_times fuel n s1

/-- A small state for examples: page count 262145, page 262144 Normal and
unallocated, every other record zero, container 0 with quota 1. -/
def demoState : KState where
  NUM_PAGES := 262145
  AT := fun i => if i = 262144 then ⟨2, 0⟩ else ⟨0, 0⟩
  pointer := VM_USERLO_PI
  CONTAINER := fun i => if i = 0 then ⟨1, 0, 0, 0, 1⟩ else ⟨0, 0, 0, 0, 0⟩

/-- The value of the loop variable of `palloc` after `i++` and the wrap test. -/
def scanNext (i : Nat) : Nat :=
  if (i + 1) % U32 = VM_USERHI_PI then VM_USERLO_PI else (i + 1) % U32

/-- Index `k` is the first free page of the user range in the circular order
`c, c+1, ..., VM_USERHI_PI-1, VM_USERLO_PI, ..., c-1` that starts at `c`. -/
def firstFreeFrom (s : KState) (c k : Nat) : Prop :=
  VM_USERLO_PI ≤ k ∧ k < VM_USERHI_PI ∧ isFree s k ∧
  (c ≤ k → ∀ j, c ≤ j → j < k → ¬ isFree s j) ∧
  (k < c → (∀ j, c ≤ j → j < VM_USERHI_PI → ¬ isFree s j) ∧
    (∀ j, VM_USERLO_PI ≤ j → j < k → ¬ isFree s j))

/-! ## Layer `MContainer`: quota test and repeated splits -/

/-- The function `container_can_consume` of `MContainer.c`.  The source spells
the second field `qouta`, which `struct SContainer` does not declare; the
embedding reads the field `quota`.  `usage + n` adds an `int` to an
`unsigned int`, so the sum and the comparison are `unsigned int`. -/
def container_can_consume (s : KState) (id n : Nat) : Nat :=
  if (toU32 (s.CONTAINER id).usage + n) % U32 ≤ toU32 (s.CONTAINER id).quota then 1 else 0

/-- The result of the last of `n + 1` successive calls `container_split(id, quota)`. -/
def container_split_last (NUM_IDS MAX_CHILDREN id quota : Nat) : Nat → KState → Nat
  | 0, s => (container_split NUM_IDS MAX_CHILDREN id quota s).1
  | n + 1, s =>
    container_split_last NUM_IDS MAX_CHILDREN id quota n
      (container_split NUM_IDS MAX_CHILDREN id quota s).2

/-- The state after `n` successive calls `container_split(id, quota)`. -/
def container_split_times (NUM_IDS MAX_CHILDREN id quota : Nat) : Nat → KState → KState
  | 0, s => s
  | n + 1, s =>
    container_split_times NUM_IDS MAX_CHILDREN id quota n
      (container_split NUM_IDS MAX_CHILDREN id quota s).2

/-! ## Layer `MPTIntro` -/

/-- Modelled from the spec: the flag `present` of a translation entry (`PTE_P`). -/
def PTE_P : Nat := 0x001

/-- Modelled from the spec: the flag `writable` of a translation entry (`PTE_W`). -/
def PTE_W : Nat := 0x002

/-- Modelled from the spec: the flag `user` of a translation entry (`PTE_U`). -/
def PTE_U : Nat := 0x004

def PT_PERM_UP : Nat := 0
def PT_PERM_PTU : Nat := PTE_P ||| PTE_W ||| PTE_U

/-- The data of the page table layer, in one physical address space.
`PDirPool[p][d]` is cell `p * 1024 + d` and `IDPTbl[d][t]` is cell
`d * 1024 + t` of a row-major array of 32-bit words.  Both arrays are
page-aligned (`gcc_aligned(PAGESIZE)`): `PDirPool` fills the `num_ids` pages
from page `pdir_page` on and `IDPTbl` the 1024 pages from page `idptbl_page`
on; these three numbers are fixed when the kernel is linked and no operation
writes them.  `mem` holds the words at the 4-aligned byte addresses outside
the two arrays. -/
structure PTState where
  PDirPool : Nat → Nat
  IDPTbl : Nat → Nat
  mem : Nat → Nat
  pdir_page : Nat
  idptbl_page : Nat
  num_ids : Nat

/-- The zero-filled page table data, with zero-filled memory; `IDPTbl` lies at
address 0x400000 and `PDirPool`, for 64 processes, at address 0x800000. -/
def ptBoot : PTState where
  PDirPool := fun _ => 0
  IDPTbl := fun _ => 0
  mem := fun _ => 0
  pdir_page := 0x800
  idptbl_page := 0x400
  num_ids := 64

/-- The byte address `a` lies in the array `PDirPool`. -/
def inPDirPool (s : PTState) (a : Nat) : Prop :=
  s.pdir_page * 4096 ≤ a ∧ a < (s.pdir_page + s.num_ids) * 4096

instance (s : PTState) (a : Nat) : Decidable (inPDirPool s a) := by
  unfold inPDirPool; infer_instance

/-- The byte address `a` lies in the array `IDPTbl`. -/
def inIDPTbl (s : PTState) (a : Nat) : Prop :=
  s.idptbl_page * 4096 ≤ a ∧ a < (s.idptbl_page + 1024) * 4096

instance (s : PTState) (a : Nat) : Decidable (inIDPTbl s a) := by
  unfold inIDPTbl; infer_instance

/-- The byte address of `PDirPool[p][d]`. -/
def pdir_slot_addr (s : PTState) (proc_index pde_index : Nat) : Nat :=
  s.pdir_page * 4096 + 4 * (proc_index * 1024 + pde_index)

/-- The read `*(unsigned int *)a` at a 4-aligned byte address: the cell of
`PDirPool` or of `IDPTbl` that lies at `a`, or else the memory word at `a`
(the arrays are distinct objects; the order of the tests matters only for a
layout in which their extents overlap). -/
def load_word (s : PTState) (a : Nat) : Nat :=
  if inPDirPool s a then s.PDirPool ((a - s.pdir_page * 4096) / 4)
  else if inIDPTbl s a then s.IDPTbl ((a - s.idptbl_page * 4096) / 4)
  else s.mem a

/-- The assignment `*(unsigned int *)a = v` at a 4-aligned byte address. -/
def store_word (a v : Nat) (s : PTState) : PTState :=
  if inPDirPool s a then
    { s with PDirPool := Function.update s.PDirPool ((a - s.pdir_page * 4096) / 4) v }
  else if inIDPTbl s a then
    { s with IDPTbl := Function.update s.IDPTbl ((a - s.idptbl_page * 4096) / 4) v }
  else { s with mem := Function.update s.mem a v }

/-- The function `get_pdir_entry` of `MPTIntro.c`. -/
def get_pdir_entry (s : PTState) (proc_index pde_index : Nat) : Nat :=
  s.PDirPool (proc_index * 1024 + pde_index)

/-- The function `set_pdir_entry` of `MPTIntro.c`. -/
def set_pdir_entry (proc_index pde_index page_index : Nat) (s : PTState) : PTState :=
  let value := ((page_index <<< 12) % U32) ||| PT_PERM_PTU
  { s with PDirPool := Function.update s.PDirPool (proc_index * 1024 + pde_index) value }

/-- The function `rmv_pdir_entry` of `MPTIntro.c`. -/
def rmv_pdir_entry (proc_index pde_index : Nat) (s : PTState) : PTState :=
  { s with PDirPool := Function.update s.PDirPool (proc_index * 1024 + pde_index) 0 }

/-- The address computed by `get_ptbl_entry` and `set_ptbl_entry`: the
directory entry without its low 12 bits, plus `pte_index << 2`. -/
def pte_addr (s : PTState) (proc_index pde_index pte_index : Nat) : Nat :=
  let pte_addr := s.PDirPool (proc_index * 1024 + pde_index)
  let pte_addr := pte_addr &&& 0xfffff000
  (pte_addr + (pte_index <<< 2) % U32) % U32

/-- The function `get_ptbl_entry` of `MPTIntro.c`: the read through the
pointer `(unsigned int *)pte_addr`. -/
def get_ptbl_entry (s : PTState) (proc_index pde_index pte_index : Nat) : Nat :=
  load_word s (pte_addr s proc_index pde_index pte_index)

/-- The function `set_ptbl_entry` of `MPTIntro.c`: the pointer `pte` is
computed once, then come the three assignments to `*pte` in the order of the
source. -/
def set_ptbl_entry (proc_index pde_index pte_index page_index perm : Nat) (s : PTState) :
    PTState :=
  let pte := pte_addr s proc_index pde_index pte_index
  let s1 := store_word pte (load_word s pte &&& 0x00000000) s
  let s2 := store_word pte ((page_index <<< 12) % U32) s1
  store_word pte (load_word s2 pte ||| (perm &&& 0x00000fff)) s2

/-- The function `set_ptbl_entry_identity` of `MPTIntro.c`: an assignment to
`IDPTbl[pde_index][pte_index]` followed by `|= perm`. -/
def set_ptbl_entry_identity (pde_index pte_index perm : Nat) (s : PTState) : PTState :=
  let c := pde_index * 1024 + pte_index
  let s1 : PTState := { s with IDPTbl := Function.update s.IDPTbl c
                                  (((((pde_index <<< 10) % U32 + pte_index) % U32) <<< 12) % U32) }
  { s1 with IDPTbl := Function.update s1.IDPTbl c ((s1.IDPTbl c ||| perm) % U32) }

/-- The function `rmv_ptbl_entry` of `MPTIntro.c`; its body is empty in the source. -/
def rmv_ptbl_entry (_proc_index _pde_index _pte_index : Nat) (s : PTState) : PTState := s

/-- A page directory whose slot 0 of process 0 points, with the three flags
set, at the page table in the physical page at address 0x100000. -/
def ptDemo : PTState := set_pdir_entry 0 0 0x100 ptBoot

/-- A page directory whose slot 0 of process 0 points, with the three flags
set, at the page of that directory itself (address 0x800000). -/
def ptSelf : PTState := set_pdir_entry 0 0 0x800 ptBoot

/-- A small state for examples: `demoState` after container 0 has used its one
page of quota (usage 1, quota 1). -/
def demoUsed : KState :=
  { demoState with CONTAINER := fun i => if i = 0 then ⟨1, 1, 0, 0, 1⟩ else ⟨0, 0, 0, 0, 0⟩ }

/-! ## Accounting -/

/-- The sum of `usage` over the containers with id below `K`, as integers. -/
def usageSum (K : Nat) (s : KState) : Int :=
  ∑ i in Finset.range K, (s.CONTAINER i).usage

/-- The number of page indices below `B` whose allocated flag is set. -/
def allocatedCount (B : Nat) (s : KState) : Nat :=
  ((Finset.range B).filter (fun j => at_is_allocated s j ≠ 0)).card

/-- The value `container_init` stores as root quota: the counter of its loop
over the page indices below `total_pages`, the page count read before
`pmem_init` ran. -/
def container_init_quota (mm : List MemRow) (s : KState) : Nat :=
  forLoop 0 (get_nps s)
    (fun i q => if at_is_norm (pmem_init mm s) i ≠ 0 ∧ at_is_allocated (pmem_init mm s) i = 0
      then (q + 1) % U32 else q) 0

/-- The invariant of the container layer: pages outside the user range are
neither Normal nor allocated; the root quota is between 0 and the size of the
user range and every other quota is 0; no usage exceeds its quota; usage is 0
from some container id on, and the sum of usage over the ids below equals the
number of pages whose allocated flag is set. -/
def acctInv (s : KState) : Prop :=
  (∀ j, j < VM_USERLO_PI ∨ VM_USERHI_PI ≤ j → (s.AT j).perm ≤ 1 ∧ (s.AT j).allocated = 0) ∧
  (0 ≤ (s.CONTAINER 0).quota ∧ (s.CONTAINER 0).quota ≤ 720896) ∧
  (∀ id, id ≠ 0 → (s.CONTAINER id).quota = 0) ∧
  (∀ id, (s.CONTAINER id).usage ≤ (s.CONTAINER id).quota) ∧
  ∃ K0, (∀ id, K0 ≤ id → (s.CONTAINER id).usage = 0) ∧
    usageSum K0 s = (allocatedCount VM_USERHI_PI s : Int)

/-- A state for examples: the allocator initialised on the boot state for the
map with the single usable row `[0x0, 0xF0000000)`, and `container_init` run
on the state this leaves (the page count is then 983040 when it is read). -/
def acctInit : KState :=
  container_init [⟨0x0, 0xF0000000, true⟩] (pmem_init [⟨0x0, 0xF0000000, true⟩] boot)

/-- The state after `container_alloc(0)` on `acctInit`: page 262144 is handed
out, the cursor is 262145 and container 0 has usage 1 of its quota 720896. -/
def acctAlloc : KState :=
  KState.mk acctInit.NUM_PAGES (allocState acctInit 262144).AT 262145
    (Function.update acctInit.CONTAINER 0 ⟨720896, 1, 0, 0, 1⟩)

/-- The state after `container_free(1, 262144)` on `acctAlloc`. -/
def acctFreed : KState := container_free 1 262144 acctAlloc

/-! # Theorems -/

/-! ## Constants -/

theorem PAGESIZE_eq : PAGESIZE = 4096 := rfl
theorem VM_USERLO_PI_eq : VM_USERLO_PI = 262144 := by decide
theorem VM_USERHI_PI_eq : VM_USERHI_PI = 983040 := by decide
theorem U32_eq : U32 = 4294967296 := rfl

/-! ## Loops -/

theorem iter_succ_last {σ : Type} (body : Nat → σ → σ) (n : Nat) :
    ∀ (lo : Nat) (s : σ), iter body lo (n + 1) s = body (lo + n) (iter body lo n s) := by
  induction n with
  | zero => intro lo s; rfl
  | succ n ih =>
    intro lo s
    have h := ih (lo + 1) (body lo s)
    have e : lo + 1 + n = lo + (n + 1) := by omega
    rw [e] at h
    exact h

theorem iter_invariant {σ : Type} (P : σ → Prop) (body : Nat → σ → σ)
    (hstep : ∀ i s, P s → P (body i s)) (n : Nat) :
    ∀ (lo : Nat) (s : σ), P s → P (iter body lo n s) := by
  induction n with
  | zero => intro lo s h; exact h
  | succ n ih => intro lo s h; exact ih (lo + 1) (body lo s) (hstep lo s h)

theorem iter_set_perm_AT (c : Nat) (n : Nat) :
    ∀ (lo : Nat) (s : KState) (j : Nat),
      (iter (fun i s => at_set_perm i c s) lo n s).AT j
        = if lo ≤ j ∧ j < lo + n then ⟨c, 0⟩ else s.AT j := by
  induction n with
  | zero =>
    intro lo s j
    have h : ¬ (lo ≤ j ∧ j < lo + 0) := by omega
    simp only [iter, if_neg h]
  | succ n ih =>
    intro lo s j
    rw [iter_succ_last, at_set_perm]
    by_cases hj : j = lo + n
    · subst hj; simp
    · simp only [Function.update_noteq hj, ih]
      by_cases h1 : lo ≤ j ∧ j < lo + n
      · have h2 : lo ≤ j ∧ j < lo + (n + 1) := ⟨h1.1, by omega⟩
        simp [h1, h2]
      · have h2 : ¬ (lo ≤ j ∧ j < lo + (n + 1)) := by
          intro h; apply h1; exact ⟨h.1, by omega⟩
        simp [h1, h2]

theorem sameRest_refl (s : KState) : sameRest s s := ⟨rfl, rfl, rfl⟩

theorem sameRest_trans {s t u : KState} (h1 : sameRest s t) (h2 : sameRest t u) : sameRest s u :=
  ⟨h2.1.trans h1.1, h2.2.1.trans h1.2.1, h2.2.2.trans h1.2.2⟩

theorem at_set_perm_sameRest (i c : Nat) (s : KState) : sameRest s (at_set_perm i c s) :=
  ⟨rfl, rfl, rfl⟩

theorem iter_sameRest (body : Nat → KState → KState)
    (hbody : ∀ i s, sameRest s (body i s)) (n lo : Nat) (s : KState) :
    sameRest s (iter body lo n s) :=
  iter_invariant (fun t => sameRest s t) body
    (fun i t ht => sameRest_trans ht (hbody i t)) n lo s (sameRest_refl s)

/-! ## The walk over one memory map row -/

theorem pmem_init_walk_eq (E perm p : Nat) (s : KState) :
    pmem_init_walk E perm p s =
      if ((p + 1) * PAGESIZE) % U32 ≤ E then
        if VM_USERHI_PI ≤ (p + 1) % U32 then
          (if VM_USERLO_PI ≤ p ∧ p < VM_USERHI_PI then at_set_perm p perm s else s)
        else pmem_init_walk E perm ((p + 1) % U32)
          (if VM_USERLO_PI ≤ p ∧ p < VM_USERHI_PI then at_set_perm p perm s else s)
      else s := by
  rw [pmem_init_walk]

theorem walk_step_AT (perm p : Nat) (s : KState) (j : Nat) :
    (if VM_USERLO_PI ≤ p ∧ p < VM_USERHI_PI then at_set_perm p perm s else s).AT j
      = if VM_USERLO_PI ≤ p ∧ p < VM_USERHI_PI ∧ j = p then ⟨perm, 0⟩ else s.AT j := by
  by_cases h : VM_USERLO_PI ≤ p ∧ p < VM_USERHI_PI
  · rw [if_pos h]
    by_cases hj : j = p
    · subst hj
      simp [at_set_perm, h.1, h.2]
    · have h2 : ¬ (VM_USERLO_PI ≤ p ∧ p < VM_USERHI_PI ∧ j = p) := fun h3 => hj h3.2.2
      rw [if_neg h2]
      simp [at_set_perm, Function.update_noteq hj]
  · rw [if_neg h]
    have h2 : ¬ (VM_USERLO_PI ≤ p ∧ p < VM_USERHI_PI ∧ j = p) := fun h3 => h ⟨h3.1, h3.2.1⟩
    rw [if_neg h2]

theorem walk_step_sameRest (perm p : Nat) (s : KState) :
    sameRest s (if VM_USERLO_PI ≤ p ∧ p < VM_USERHI_PI then at_set_perm p perm s else s) := by
  split_ifs
  · exact at_set_perm_sameRest _ _ _
  · exact sameRest_refl _

theorem pmem_init_walk_spec (E perm : Nat) :
    ∀ (d p : Nat) (s : KState), p + 1 < U32 → VM_USERHI_PI - p ≤ d →
      sameRest s (pmem_init_walk E perm p s) ∧
      ∀ j, (pmem_init_walk E perm p s).AT j =
        if VM_USERLO_PI ≤ j ∧ j < VM_USERHI_PI ∧ p ≤ j ∧ (j + 1) * PAGESIZE ≤ E
        then ⟨perm, 0⟩ else s.AT j := by
  intro d
  induction d with
  | zero =>
    intro p s hp hd
    rw [pmem_init_walk_eq]
    simp only [VM_USERHI_PI_eq, VM_USERLO_PI_eq, U32_eq, PAGESIZE_eq] at *
    have hb : 983040 ≤ (p + 1) % 4294967296 := by omega
    by_cases hg : (p + 1) * 4096 % 4294967296 ≤ E
    · rw [if_pos hg, if_pos hb]
      have hn : ¬ (262144 ≤ p ∧ p < 983040) := by omega
      rw [if_neg hn]
      refine ⟨sameRest_refl _, fun j => ?_⟩
      have hc : ¬ (262144 ≤ j ∧ j < 983040 ∧ p ≤ j ∧ (j + 1) * 4096 ≤ E) := by omega
      rw [if_neg hc]
    · rw [if_neg hg]
      refine ⟨sameRest_refl _, fun j => ?_⟩
      have hc : ¬ (262144 ≤ j ∧ j < 983040 ∧ p ≤ j ∧ (j + 1) * 4096 ≤ E) := by omega
      rw [if_neg hc]
  | succ d ih =>
    intro p s hp hd
    rw [pmem_init_walk_eq]
    by_cases hg : (p + 1) * PAGESIZE % U32 ≤ E
    · rw [if_pos hg]
      by_cases hb : VM_USERHI_PI ≤ (p + 1) % U32
      · rw [if_pos hb]
        refine ⟨walk_step_sameRest _ _ _, fun j => ?_⟩
        rw [walk_step_AT]
        simp only [VM_USERHI_PI_eq, VM_USERLO_PI_eq, U32_eq, PAGESIZE_eq] at *
        by_cases hc : 262144 ≤ j ∧ j < 983040 ∧ p ≤ j ∧ (j + 1) * 4096 ≤ E
        · have hc2 : 262144 ≤ p ∧ p < 983040 ∧ j = p := by omega
          rw [if_pos hc, if_pos hc2]
        · have hc2 : ¬ (262144 ≤ p ∧ p < 983040 ∧ j = p) := by omega
          rw [if_neg hc, if_neg hc2]
      · rw [if_neg hb]
        have hp1 : (p + 1) % U32 = p + 1 := Nat.mod_eq_of_lt hp
        rw [hp1] at hb ⊢
        have hrec := ih (p + 1)
          (if VM_USERLO_PI ≤ p ∧ p < VM_USERHI_PI then at_set_perm p perm s else s)
          (by simp only [VM_USERHI_PI_eq, U32_eq] at *; omega)
          (by simp only [VM_USERHI_PI_eq, U32_eq] at *; omega)
        refine ⟨sameRest_trans (walk_step_sameRest _ _ _) hrec.1, fun j => ?_⟩
        rw [hrec.2 j, walk_step_AT]
        simp only [VM_USERHI_PI_eq, VM_USERLO_PI_eq, U32_eq, PAGESIZE_eq] at *
        by_cases hc : 262144 ≤ j ∧ j < 983040 ∧ p ≤ j ∧ (j + 1) * 4096 ≤ E
        · rw [if_pos hc]
          by_cases hc1 : 262144 ≤ j ∧ j < 983040 ∧ p + 1 ≤ j ∧ (j + 1) * 4096 ≤ E
          · rw [if_pos hc1]
          · have hc2 : 262144 ≤ p ∧ p < 983040 ∧ j = p := by omega
            rw [if_neg hc1, if_pos hc2]
        · have hc1 : ¬ (262144 ≤ j ∧ j < 983040 ∧ p + 1 ≤ j ∧ (j + 1) * 4096 ≤ E) := by omega
          have hc2 : ¬ (262144 ≤ p ∧ p < 983040 ∧ j = p) := by omega
          rw [if_neg hc, if_neg hc1, if_neg hc2]
    · rw [if_neg hg]
      refine ⟨sameRest_refl _, fun j => ?_⟩
      simp only [VM_USERHI_PI_eq, VM_USERLO_PI_eq, U32_eq, PAGESIZE_eq] at *
      have hc : ¬ (262144 ≤ j ∧ j < 983040 ∧ p ≤ j ∧ (j + 1) * 4096 ≤ E) := by omega
      rw [if_neg hc]

/-! ## One row, all rows, and the whole of `pmem_init` -/

theorem get_mms_lt (mm : List MemRow) (i : Nat) : get_mms mm i < U32 :=
  Nat.mod_lt _ (by decide)

theorem pmem_init_row_spec (mm : List MemRow) (i : Nat) (s : KState) :
    sameRest s (pmem_init_row mm i s) ∧
    ∀ j, (pmem_init_row mm i s).AT j =
      if VM_USERLO_PI ≤ j ∧ j < VM_USERHI_PI ∧ covers mm i j
      then ⟨if is_usable mm i = 1 then 2 else 0, 0⟩ else s.AT j := by
  have hlt := get_mms_lt mm i
  unfold pmem_init_row
  simp only []
  generalize hst : get_mms mm i = st at hlt
  generalize hE : (st + get_mml mm i) % U32 = E
  generalize hperm : (if is_usable mm i = 1 then 2 else 0) = perm
  generalize hp0 : (if st / PAGESIZE * PAGESIZE % U32 < st then (st / PAGESIZE + 1) % U32
    else st / PAGESIZE) = p0
  have hp0lt : p0 + 1 < U32 ∧ ∀ j, p0 ≤ j ↔ st ≤ j * PAGESIZE := by
    simp only [U32_eq, PAGESIZE_eq] at *
    subst hp0
    split_ifs with h <;> refine ⟨by omega, fun j => by omega⟩
  have hw := pmem_init_walk_spec E perm (VM_USERHI_PI - p0) p0 s hp0lt.1 (le_refl _)
  refine ⟨hw.1, fun j => ?_⟩
  rw [hw.2 j]
  have hcov : covers mm i j ↔ (p0 ≤ j ∧ (j + 1) * PAGESIZE ≤ E) := by
    unfold covers
    rw [hst, hE, hp0lt.2 j]
  by_cases hc : VM_USERLO_PI ≤ j ∧ j < VM_USERHI_PI ∧ p0 ≤ j ∧ (j + 1) * PAGESIZE ≤ E
  · have hc2 : VM_USERLO_PI ≤ j ∧ j < VM_USERHI_PI ∧ covers mm i j :=
      ⟨hc.1, hc.2.1, hcov.2 hc.2.2⟩
    rw [if_pos hc, if_pos hc2]
  · have hc2 : ¬ (VM_USERLO_PI ≤ j ∧ j < VM_USERHI_PI ∧ covers mm i j) :=
      fun h => hc ⟨h.1, h.2.1, hcov.1 h.2.2⟩
    rw [if_neg hc, if_neg hc2]

theorem is_usable_cases (mm : List MemRow) (i : Nat) : is_usable mm i = 1 ∨ is_usable mm i = 0 := by
  unfold is_usable; split_ifs <;> simp

theorem rows_outside (mm : List MemRow) (n : Nat) (s : KState) :
    sameRest s (iter (pmem_init_row mm) 0 n s) ∧
    ∀ j, ¬ (VM_USERLO_PI ≤ j ∧ j < VM_USERHI_PI) →
      (iter (pmem_init_row mm) 0 n s).AT j = s.AT j := by
  induction n with
  | zero => exact ⟨sameRest_refl _, fun j _ => rfl⟩
  | succ n ih =>
    rw [iter_succ_last]
    have hr := pmem_init_row_spec mm (0 + n) (iter (pmem_init_row mm) 0 n s)
    refine ⟨sameRest_trans ih.1 hr.1, fun j hj => ?_⟩
    rw [hr.2 j, if_neg (fun h => hj ⟨h.1, h.2.1⟩)]
    exact ih.2 j hj

theorem rows_user (mm : List MemRow) (s : KState) (j : Nat)
    (hj : VM_USERLO_PI ≤ j ∧ j < VM_USERHI_PI) (h0 : s.AT j = ⟨0, 0⟩) (n : Nat) :
    ((iter (pmem_init_row mm) 0 n s).AT j = ⟨2, 0⟩ ∧ lastCoverUsable mm n j) ∨
    ((iter (pmem_init_row mm) 0 n s).AT j = ⟨0, 0⟩ ∧ ¬ lastCoverUsable mm n j) := by
  induction n with
  | zero =>
    right
    refine ⟨h0, ?_⟩
    rintro ⟨i, hi, _⟩
    omega
  | succ n ih =>
    rw [iter_succ_last]
    have hr := (pmem_init_row_spec mm (0 + n) (iter (pmem_init_row mm) 0 n s)).2 j
    rw [Nat.zero_add] at hr
    rw [Nat.zero_add, hr]
    by_cases hc : covers mm n j
    · rw [if_pos ⟨hj.1, hj.2, hc⟩]
      rcases is_usable_cases mm n with hu | hu
      · left
        refine ⟨by simp [hu], n, by omega, hc, hu, ?_⟩
        intro k h1 h2
        omega
      · right
        refine ⟨by simp [hu], ?_⟩
        rintro ⟨i, hi, hci, hui, hall⟩
        by_cases hin : i = n
        · subst hin; omega
        · have := hall n (by omega) (by omega) hc
          omega
    · rw [if_neg (fun h => hc h.2.2)]
      have hiff : lastCoverUsable mm (n + 1) j ↔ lastCoverUsable mm n j := by
        constructor
        · rintro ⟨i, hi, hci, hui, hall⟩
          have hin : i ≠ n := by
            intro h; subst h; exact hc hci
          exact ⟨i, by omega, hci, hui, fun k h1 h2 h3 => hall k h1 (by omega) h3⟩
        · rintro ⟨i, hi, hci, hui, hall⟩
          refine ⟨i, by omega, hci, hui, fun k h1 h2 h3 => ?_⟩
          by_cases hkn : k = n
          · subst hkn; exact absurd h3 hc
          · exact hall k h1 (by omega) h3
      rw [hiff]
      exact ih

theorem set_nps_sameAT (n : Nat) (s : KState) : (set_nps n s).AT = s.AT := rfl

/-- The page count, cursor and container table after `pmem_init`. -/
theorem pmem_init_rest (mm : List MemRow) (s : KState) :
    (pmem_init mm s).NUM_PAGES = pmem_init_nps mm ∧
    (pmem_init mm s).pointer = s.pointer ∧
    (pmem_init mm s).CONTAINER = s.CONTAINER := by
  unfold pmem_init forLoop
  simp only []
  have h4 := (rows_outside mm (get_size mm - 0)
    (iter (fun i s => at_set_perm i 0 s) VM_USERLO_PI (VM_USERHI_PI - VM_USERLO_PI)
      (iter (fun i s => at_set_perm i 1 s) VM_USERHI_PI (pmem_init_nps mm - VM_USERHI_PI)
        (iter (fun i s => at_set_perm i 1 s) 0 (VM_USERLO_PI - 0)
          (set_nps (pmem_init_nps mm) s))))).1
  have h3 := iter_sameRest (fun i s => at_set_perm i 0 s) (fun i s => at_set_perm_sameRest i 0 s)
    (VM_USERHI_PI - VM_USERLO_PI) VM_USERLO_PI
      (iter (fun i s => at_set_perm i 1 s) VM_USERHI_PI (pmem_init_nps mm - VM_USERHI_PI)
        (iter (fun i s => at_set_perm i 1 s) 0 (VM_USERLO_PI - 0)
          (set_nps (pmem_init_nps mm) s)))
  have h2 := iter_sameRest (fun i s => at_set_perm i 1 s) (fun i s => at_set_perm_sameRest i 1 s)
    (pmem_init_nps mm - VM_USERHI_PI) VM_USERHI_PI
        (iter (fun i s => at_set_perm i 1 s) 0 (VM_USERLO_PI - 0)
          (set_nps (pmem_init_nps mm) s))
  have h1 := iter_sameRest (fun i s => at_set_perm i 1 s) (fun i s => at_set_perm_sameRest i 1 s)
    (VM_USERLO_PI - 0) 0 (set_nps (pmem_init_nps mm) s)
  have h := sameRest_trans (sameRest_trans (sameRest_trans h1 h2) h3) h4
  exact ⟨h.1, h.2.1, h.2.2⟩

/-- Pages below the user range, and pages from the top of the user range up to
the page count, are Kernel and unallocated after `pmem_init`. -/
theorem pmem_init_AT_kernel (mm : List MemRow) (s : KState) (j : Nat)
    (hj : j < VM_USERLO_PI ∨ (VM_USERHI_PI ≤ j ∧ j < pmem_init_nps mm)) :
    (pmem_init mm s).AT j = ⟨1, 0⟩ := by
  unfold pmem_init forLoop
  simp only []
  have hout : ¬ (VM_USERLO_PI ≤ j ∧ j < VM_USERHI_PI) := by
    simp only [VM_USERHI_PI_eq, VM_USERLO_PI_eq] at *; omega
  rw [(rows_outside mm _ _).2 j hout, iter_set_perm_AT, iter_set_perm_AT, iter_set_perm_AT]
  simp only [VM_USERHI_PI_eq, VM_USERLO_PI_eq] at *
  have h3 : ¬ (262144 ≤ j ∧ j < 262144 + (983040 - 262144)) := by omega
  rw [if_neg h3]
  rcases hj with hj | hj
  · have h2 : ¬ (983040 ≤ j ∧ j < 983040 + (pmem_init_nps mm - 983040)) := by omega
    have h1 : 0 ≤ j ∧ j < 0 + (262144 - 0) := by omega
    rw [if_neg h2, if_pos h1]
  · have h2 : 983040 ≤ j ∧ j < 983040 + (pmem_init_nps mm - 983040) := by omega
    rw [if_pos h2]

/-- Pages above both the user range and the page count keep their record. -/
theorem pmem_init_AT_above (mm : List MemRow) (s : KState) (j : Nat)
    (h1 : VM_USERHI_PI ≤ j) (h2 : pmem_init_nps mm ≤ j) :
    (pmem_init mm s).AT j = s.AT j := by
  unfold pmem_init forLoop
  simp only []
  have hout : ¬ (VM_USERLO_PI ≤ j ∧ j < VM_USERHI_PI) := by
    simp only [VM_USERHI_PI_eq, VM_USERLO_PI_eq] at *; omega
  rw [(rows_outside mm _ _).2 j hout, iter_set_perm_AT, iter_set_perm_AT, iter_set_perm_AT]
  simp only [VM_USERHI_PI_eq, VM_USERLO_PI_eq] at *
  have h3 : ¬ (262144 ≤ j ∧ j < 262144 + (983040 - 262144)) := by omega
  have h4 : ¬ (983040 ≤ j ∧ j < 983040 + (pmem_init_nps mm - 983040)) := by omega
  have h5 : ¬ (0 ≤ j ∧ j < 0 + (262144 - 0)) := by omega
  rw [if_neg h3, if_neg h4, if_neg h5]
  rfl

/-- In the user range a page is Normal exactly when the last row that covers
it is usable, and Reserved otherwise; it is unallocated in both cases. -/
theorem pmem_init_AT_user (mm : List MemRow) (s : KState) (j : Nat)
    (hj : VM_USERLO_PI ≤ j ∧ j < VM_USERHI_PI) :
    ((pmem_init mm s).AT j = ⟨2, 0⟩ ∧ lastCoverUsable mm mm.length j) ∨
    ((pmem_init mm s).AT j = ⟨0, 0⟩ ∧ ¬ lastCoverUsable mm mm.length j) := by
  unfold pmem_init forLoop
  simp only []
  have h := rows_user mm
    (iter (fun i s => at_set_perm i 0 s) VM_USERLO_PI (VM_USERHI_PI - VM_USERLO_PI)
      (iter (fun i s => at_set_perm i 1 s) VM_USERHI_PI (pmem_init_nps mm - VM_USERHI_PI)
        (iter (fun i s => at_set_perm i 1 s) 0 (VM_USERLO_PI - 0)
          (set_nps (pmem_init_nps mm) s)))) j hj
    (by
      rw [iter_set_perm_AT]
      have h3 : VM_USERLO_PI ≤ j ∧ j < VM_USERLO_PI + (VM_USERHI_PI - VM_USERLO_PI) := by
        simp only [VM_USERHI_PI_eq, VM_USERLO_PI_eq] at *; omega
      rw [if_pos h3])
    (get_size mm - 0)
  exact h

/-! ## Page count -/

theorem getD_last (mm : List MemRow) (r : MemRow) (h : mm.getLast? = some r) :
    mm.getD (mm.length - 1) ⟨0, 0, false⟩ = r := by
  rw [List.getLast?_eq_getElem?] at h
  rw [List.getD_eq_getElem?_getD, h]
  rfl

/-- C8 (as stated, refuted): for the single row `[0, 4097)` the code stores
page count 1 where the rounded-up quotient is 2, and for the map
`[0x100000, 0x200000)`, `[0, 0x1000)` it stores 1 (from the last row) where the
highest end address gives 512. -/
theorem pmem_init_page_count_not_ceil_of_highest :
    (pmem_init [⟨0, 4097, true⟩] boot).NUM_PAGES = 1 ∧
    spec_page_count [⟨0, 4097, true⟩] = 2 ∧
    (pmem_init [⟨0x100000, 0x100000, true⟩, ⟨0, 0x1000, true⟩] boot).NUM_PAGES = 1 ∧
    spec_page_count [⟨0x100000, 0x100000, true⟩, ⟨0, 0x1000, true⟩] = 512 := by
  refine ⟨?_, by decide, ?_, by decide⟩
  · rw [(pmem_init_rest _ _).1]; decide
  · rw [(pmem_init_rest _ _).1]; decide

/-- C8 (amended): the page count stored by `pmem_init` is 0 for a map without
rows; for a map whose last row ends below 2^32 it is the end address
`start + length` of that last row divided by 4096, rounded down; for the single
row `[0x0, 0xF0000000)` it is 983040. -/
theorem pmem_init_page_count (mm : List MemRow) (s : KState) :
    (mm = [] → (pmem_init mm s).NUM_PAGES = 0) ∧
    (∀ r, mm.getLast? = some r → r.start + r.length < U32 →
      (pmem_init mm s).NUM_PAGES = (r.start + r.length) / PAGESIZE) ∧
    (pmem_init [⟨0x0, 0xF0000000, true⟩] s).NUM_PAGES = 983040 := by
  refine ⟨?_, ?_, ?_⟩
  · intro h
    subst h
    rw [(pmem_init_rest _ _).1]
    rfl
  · intro r hr hfit
    rw [(pmem_init_rest _ _).1]
    have hne : mm.length ≠ 0 := by
      intro h0
      have : mm = [] := List.length_eq_zero.mp h0
      subst this
      simp at hr
    unfold pmem_init_nps get_mms get_mml get_size
    simp only [getD_last mm r hr, if_neg hne]
    simp only [U32_eq, PAGESIZE_eq] at *
    omega
  · rw [(pmem_init_rest _ _).1]; decide

theorem pmem_init_page_count_witness :
    (pmem_init [⟨0x1000, 0x2001, true⟩] boot).NUM_PAGES = (0x1000 + 0x2001) / PAGESIZE :=
  (pmem_init_page_count [⟨0x1000, 0x2001, true⟩] boot).2.1 ⟨0x1000, 0x2001, true⟩ rfl (by decide)

/-! ## Permissions in the user range -/

theorem covers_iff_rowCovers (mm : List MemRow) (i j : Nat)
    (hfit : (mm.getD i ⟨0, 0, false⟩).start + (mm.getD i ⟨0, 0, false⟩).length < U32) :
    covers mm i j ↔ rowCovers (mm.getD i ⟨0, 0, false⟩) j := by
  unfold covers rowCovers get_mms get_mml
  generalize mm.getD i ⟨0, 0, false⟩ = r at hfit ⊢
  simp only [U32_eq, PAGESIZE_eq] at *
  have h1 : r.start % 4294967296 = r.start := Nat.mod_eq_of_lt (by omega)
  have h2 : r.length % 4294967296 = r.length := Nat.mod_eq_of_lt (by omega)
  have h3 : (r.start + r.length) % 4294967296 = r.start + r.length := Nat.mod_eq_of_lt hfit
  rw [h1, h2, h3]

theorem is_usable_iff (mm : List MemRow) (i : Nat) :
    is_usable mm i = 1 ↔ (mm.getD i ⟨0, 0, false⟩).usable = true := by
  unfold is_usable
  generalize mm.getD i ⟨0, 0, false⟩ = r
  cases hr : r.usable <;> simp

theorem getD_mem (mm : List MemRow) (i : Nat) (hi : i < mm.length) :
    mm.getD i ⟨0, 0, false⟩ ∈ mm := by
  rw [List.getD_eq_getElem _ _ hi]
  exact List.getElem_mem hi

theorem lastCoverUsable_iff (mm : List MemRow) (j : Nat)
    (hfit : ∀ r, r ∈ mm → r.start + r.length < U32) :
    lastCoverUsable mm mm.length j ↔ lastRowUsable mm j := by
  have hc : ∀ i, i < mm.length →
      (covers mm i j ↔ rowCovers (mm.getD i ⟨0, 0, false⟩) j) :=
    fun i hi => covers_iff_rowCovers mm i j (hfit _ (getD_mem mm i hi))
  constructor
  · rintro ⟨i, hi, hci, hui, hall⟩
    refine ⟨i, hi, (hc i hi).1 hci, (is_usable_iff mm i).1 hui, fun k h1 h2 h3 => ?_⟩
    exact (is_usable_iff mm k).1 (hall k h1 h2 ((hc k h2).2 h3))
  · rintro ⟨i, hi, hci, hui, hall⟩
    refine ⟨i, hi, (hc i hi).2 hci, (is_usable_iff mm i).2 hui, fun k h1 h2 h3 => ?_⟩
    exact (is_usable_iff mm k).2 (hall k h1 h2 ((hc k h2).1 h3))

/-- C6 (as stated, refuted): in the map with the usable row
`[0x40000000, 0x40001000)` followed by an unusable row over the same bytes,
page 262144 lies in the user range and is fully covered by a usable row, yet
`pmem_init` leaves it Reserved (permission 0). -/
theorem pmem_init_usable_row_overridden :
    VM_USERLO_PI ≤ 262144 ∧ 262144 < VM_USERHI_PI ∧
    someRowUsable [⟨0x40000000, 0x1000, true⟩, ⟨0x40000000, 0x1000, false⟩] 262144 ∧
    ((pmem_init [⟨0x40000000, 0x1000, true⟩, ⟨0x40000000, 0x1000, false⟩] boot).AT 262144).perm = 0 ∧
    at_is_norm (pmem_init [⟨0x40000000, 0x1000, true⟩, ⟨0x40000000, 0x1000, false⟩] boot) 262144 = 0 := by
  have hlo : VM_USERLO_PI ≤ 262144 := by decide
  have hhi : 262144 < VM_USERHI_PI := by decide
  have hnot : ¬ lastCoverUsable
      [⟨0x40000000, 0x1000, true⟩, ⟨0x40000000, 0x1000, false⟩] 2 262144 := by
    rintro ⟨i, hi, _, hui, hall⟩
    have hc1 : covers [⟨0x40000000, 0x1000, true⟩, ⟨0x40000000, 0x1000, false⟩] 1 262144 := by
      decide
    have hi2 : i = 0 ∨ i = 1 := by omega
    rcases hi2 with h | h
    · subst h
      have := hall 1 (by omega) (by omega) hc1
      revert this
      decide
    · subst h
      revert hui
      decide
  refine ⟨hlo, hhi, ⟨⟨0x40000000, 0x1000, true⟩, by simp, rfl, by decide⟩, ?_⟩
  rcases pmem_init_AT_user [⟨0x40000000, 0x1000, true⟩, ⟨0x40000000, 0x1000, false⟩] boot
    262144 ⟨hlo, hhi⟩ with h | h
  · exact absurd h.2 hnot
  · unfold at_is_norm
    rw [h.1]
    exact ⟨rfl, rfl⟩

/-- C6 (amended): for every memory map whose rows all end below 2^32, after
`pmem_init` a page index in `[VM_USERLO_PI, VM_USERHI_PI)` has permission
Normal (2) if and only if some row fully covers the byte range of the page and
the last such row, in map order, is usable; every other page of that range has
permission Reserved (0). -/
theorem pmem_init_user_perm (mm : List MemRow) (s : KState) (j : Nat)
    (hfit : ∀ r, r ∈ mm → r.start + r.length < U32)
    (hj : VM_USERLO_PI ≤ j ∧ j < VM_USERHI_PI) :
    (((pmem_init mm s).AT j).perm = 2 ↔ lastRowUsable mm j) ∧
    (at_is_norm (pmem_init mm s) j = 1 ↔ lastRowUsable mm j) ∧
    (¬ lastRowUsable mm j → ((pmem_init mm s).AT j).perm = 0) := by
  have hiff := lastCoverUsable_iff mm j hfit
  unfold at_is_norm
  rcases pmem_init_AT_user mm s j hj with h | h
  · rw [h.1]
    have hl := hiff.1 h.2
    exact ⟨⟨fun _ => hl, fun _ => rfl⟩, ⟨fun _ => hl, fun _ => rfl⟩, fun hn => absurd hl hn⟩
  · rw [h.1]
    have hl : ¬ lastRowUsable mm j := fun hh => h.2 (hiff.2 hh)
    refine ⟨⟨fun h2 => ?_, fun h2 => absurd h2 hl⟩, ⟨fun h2 => ?_, fun h2 => absurd h2 hl⟩,
      fun _ => rfl⟩
    · exact absurd h2 (by decide)
    · exact absurd h2 (by decide)

theorem pmem_init_user_perm_witness :
    ((pmem_init [⟨0x40000000, 0x1000, true⟩] boot).AT 262144).perm = 2 ↔
      lastRowUsable [⟨0x40000000, 0x1000, true⟩] 262144 :=
  (pmem_init_user_perm [⟨0x40000000, 0x1000, true⟩] boot 262144
    (by intro r hr; simp at hr; subst hr; decide) (by decide)).1

/-! ## The allocator loop -/

theorem at_set_allocated_AT (i a : Nat) (s : KState) (j : Nat) :
    (at_set_allocated i a s).AT j = if j = i then ⟨(s.AT i).perm, a⟩ else s.AT j := by
  unfold at_set_allocated
  by_cases h : j = i
  · subst h; simp
  · simp [Function.update_noteq h, h]

theorem allocState_AT (s : KState) (k j : Nat) :
    (allocState s k).AT j = if j = k then ⟨(s.AT k).perm, 1⟩ else s.AT j :=
  at_set_allocated_AT k 1 s j

theorem palloc_loop_succ (fuel : Nat) (s : KState) (i : Nat) :
    palloc_loop (fuel + 1) s i =
      if isFree s i then some (i, allocState s i)
      else if scanNext i = s.pointer then some (0, s)
      else palloc_loop fuel s (scanNext i) := rfl

theorem palloc_loop_some (fuel : Nat) (s : KState) :
    ∀ (i r : Nat) (s' : KState), palloc_loop fuel s i = some (r, s') →
      (r = 0 ∧ s' = s) ∨ (isFree s r ∧ s' = allocState s r) := by
  induction fuel with
  | zero => intro i r s' h; simp [palloc_loop] at h
  | succ fuel ih =>
    intro i r s' h
    rw [palloc_loop_succ] at h
    split_ifs at h with h1 h2
    · simp only [Option.some.injEq, Prod.mk.injEq] at h
      obtain ⟨rfl, rfl⟩ := h
      exact Or.inr ⟨h1, rfl⟩
    · simp only [Option.some.injEq, Prod.mk.injEq] at h
      obtain ⟨rfl, rfl⟩ := h
      exact Or.inl ⟨rfl, rfl⟩
    · exact ih _ r s' h

theorem palloc_some (fuel : Nat) (s : KState) (r : Nat) (s' : KState)
    (h : palloc fuel s = some (r, s')) :
    (r = 0 ∧ s' = s) ∨ (isFree s r ∧ s' = allocState s r) := by
  unfold palloc at h
  split_ifs at h
  · simp only [Option.some.injEq, Prod.mk.injEq] at h
    obtain ⟨rfl, rfl⟩ := h
    exact Or.inl ⟨rfl, rfl⟩
  · exact palloc_loop_some fuel s _ r s' h

/-- C4: whenever `palloc` returns a non-zero index `r`, page `r` was Normal
(permission above 1) and had a clear allocated flag in the state before the
call. -/
theorem palloc_returns_normal_unallocated (fuel : Nat) (s : KState) (r : Nat) (s' : KState)
    (h : palloc fuel s = some (r, s')) (hr : r ≠ 0) :
    at_is_norm s r = 1 ∧ at_is_allocated s r = 0 ∧
    1 < (s.AT r).perm ∧ (s.AT r).allocated = 0 := by
  rcases palloc_some fuel s r s' h with h1 | h1
  · exact absurd h1.1 hr
  · obtain ⟨hn, ha⟩ := h1.1
    refine ⟨hn, ha, ?_, ?_⟩
    · unfold at_is_norm at hn
      by_contra hc
      rw [if_neg hc] at hn
      exact absurd hn (by decide)
    · unfold at_is_allocated at ha
      by_contra hc
      rw [if_pos (Nat.pos_of_ne_zero hc)] at ha
      exact absurd ha (by decide)

theorem palloc_returns_normal_unallocated_witness :
    at_is_norm demoState 262144 = 1 ∧ at_is_allocated demoState 262144 = 0 ∧
    1 < (demoState.AT 262144).perm ∧ (demoState.AT 262144).allocated = 0 :=
  palloc_returns_normal_unallocated 1 demoState 262144 (allocState demoState 262144)
    rfl (by decide)

/-! ## Invariants of the states reachable through `palloc` and `pfree` -/

theorem isFree_perm {s : KState} {i : Nat} (h : isFree s i) : 1 < (s.AT i).perm := by
  have hn := h.1
  unfold at_is_norm at hn
  by_contra hc
  rw [if_neg hc] at hn
  exact absurd hn (by decide)

theorem PReach_inv (mm : List MemRow) (s : KState) (h : PReach mm s) :
    s.NUM_PAGES = pmem_init_nps mm ∧
    (VM_USERLO_PI ≤ s.pointer ∧ s.pointer ≤ VM_USERHI_PI) ∧
    (∀ j, j < VM_USERLO_PI ∨ VM_USERHI_PI ≤ j → (s.AT j).perm ≤ 1) ∧
    (∀ j, j < s.NUM_PAGES → j < VM_USERLO_PI ∨ VM_USERHI_PI ≤ j → s.AT j = ⟨1, 0⟩) := by
  induction h with
  | init =>
    have hr := pmem_init_rest mm boot
    refine ⟨hr.1, ?_, ?_, ?_⟩
    · rw [hr.2.1]
      exact ⟨le_refl _, by decide⟩
    · intro j hj
      by_cases hk : j < VM_USERLO_PI ∨ (VM_USERHI_PI ≤ j ∧ j < pmem_init_nps mm)
      · rw [pmem_init_AT_kernel mm boot j hk]
      · have h1 : VM_USERHI_PI ≤ j := by
          rcases hj with hj | hj
          · exact absurd (Or.inl hj) hk
          · exact hj
        have h2 : pmem_init_nps mm ≤ j := by
          by_contra hc
          exact hk (Or.inr ⟨h1, Nat.lt_of_not_le hc⟩)
        rw [pmem_init_AT_above mm boot j h1 h2]
        exact Nat.zero_le _
    · intro j hj hout
      rw [hr.1] at hj
      apply pmem_init_AT_kernel
      rcases hout with ho | ho
      · exact Or.inl ho
      · exact Or.inr ⟨ho, hj⟩
  | @alloc s s' fuel r hs hp ih =>
    rcases palloc_some fuel s r s' hp with h1 | h1
    · rw [h1.2]; exact ih
    · obtain ⟨hfree, rfl⟩ := h1
      obtain ⟨i1, i2, i3, i4⟩ := ih
      have hperm := isFree_perm hfree
      have hin : VM_USERLO_PI ≤ r ∧ r < VM_USERHI_PI := by
        by_contra hc
        have := i3 r (by omega)
        omega
      refine ⟨i1, ?_, ?_, ?_⟩
      · show VM_USERLO_PI ≤ (r + 1) % U32 ∧ (r + 1) % U32 ≤ VM_USERHI_PI
        simp only [VM_USERHI_PI_eq, VM_USERLO_PI_eq, U32_eq] at *
        omega
      · intro j hj
        rw [allocState_AT]
        split_ifs with hjr
        · subst hjr; omega
        · exact i3 j hj
      · intro j hj hout
        rw [allocState_AT]
        split_ifs with hjr
        · subst hjr; omega
        · exact i4 j hj hout
  | @free s i hs ih =>
    obtain ⟨i1, i2, i3, i4⟩ := ih
    refine ⟨i1, i2, ?_, ?_⟩
    · intro j hj
      show ((at_set_allocated i 0 s).AT j).perm ≤ 1
      rw [at_set_allocated_AT]
      split_ifs with hji
      · subst hji; exact i3 j hj
      · exact i3 j hj
    · intro j hj hout
      show (at_set_allocated i 0 s).AT j = ⟨1, 0⟩
      rw [at_set_allocated_AT]
      split_ifs with hji
      · subst hji
        have := i4 j hj hout
        rw [this]
      · exact i4 j hj hout

/-- C7: in every state reachable from `pmem_init` by `palloc` and `pfree`
calls, every page index below the page count that lies outside
`[VM_USERLO_PI, VM_USERHI_PI)`, page 0 among them, has permission Kernel (1)
and a clear allocated flag, and a successful `palloc` only returns indices
inside that range. -/
theorem kernel_pages_never_allocated (mm : List MemRow) (s : KState) (h : PReach mm s) :
    (∀ j, j < s.NUM_PAGES → j < VM_USERLO_PI ∨ VM_USERHI_PI ≤ j →
      (s.AT j).perm = 1 ∧ (s.AT j).allocated = 0 ∧
      at_is_norm s j = 0 ∧ at_is_allocated s j = 0) ∧
    (0 < s.NUM_PAGES → (s.AT 0).perm = 1 ∧ (s.AT 0).allocated = 0) ∧
    (∀ fuel r s', palloc fuel s = some (r, s') → r ≠ 0 →
      VM_USERLO_PI ≤ r ∧ r < VM_USERHI_PI) := by
  obtain ⟨_, _, i3, i4⟩ := PReach_inv mm s h
  refine ⟨?_, ?_, ?_⟩
  · intro j hj hout
    have e := i4 j hj hout
    unfold at_is_norm at_is_allocated
    rw [e]
    exact ⟨rfl, rfl, rfl, rfl⟩
  · intro h0
    have e := i4 0 h0 (Or.inl (by decide))
    rw [e]
    exact ⟨rfl, rfl⟩
  · intro fuel r s' hp hr
    have hperm : 1 < (s.AT r).perm := by
      rcases palloc_some fuel s r s' hp with h1 | h1
      · exact absurd h1.1 hr
      · exact isFree_perm h1.1
    by_contra hc
    have := i3 r (by omega)
    omega

theorem kernel_pages_never_allocated_witness :
    ((pmem_init [⟨0x0, 0xF0000000, true⟩] boot).AT 0).perm = 1 ∧
    ((pmem_init [⟨0x0, 0xF0000000, true⟩] boot).AT 0).allocated = 0 :=
  (kernel_pages_never_allocated [⟨0x0, 0xF0000000, true⟩] _ PReach.init).2.1
    (by rw [(pmem_init_rest _ _).1]; decide)

/-! ## Containers -/

theorem palloc_CONTAINER (fuel : Nat) (s : KState) (r : Nat) (s' : KState)
    (h : palloc fuel s = some (r, s')) : s'.CONTAINER = s.CONTAINER := by
  rcases palloc_some fuel s r s' h with h1 | h1
  · rw [h1.2]
  · rw [h1.2]; rfl

/-- C10: when `usage(id) >= quota(id)`, `container_alloc(id)` returns 0 and
leaves the whole state (container table, allocation table, cursor) as it was;
when `usage(id) < quota(id)` it returns what `palloc` returns (and does not
return when `palloc` does not), with the allocation table and cursor as
`palloc` leaves them; a non-zero result increments `usage(id)` by one and
changes no other field and no other container, a zero result changes no
container. -/
theorem container_alloc_spec (fuel id : Nat) (s : KState) :
    ((s.CONTAINER id).quota ≤ (s.CONTAINER id).usage →
      container_alloc fuel id s = some (0, s)) ∧
    ((s.CONTAINER id).usage < (s.CONTAINER id).quota →
      (palloc fuel s = none → container_alloc fuel id s = none) ∧
      (∀ s1, palloc fuel s = some (0, s1) →
        container_alloc fuel id s = some (0, s1) ∧ s1.CONTAINER = s.CONTAINER) ∧
      (∀ r s1, palloc fuel s = some (r, s1) → r ≠ 0 →
        ∃ s2, container_alloc fuel id s = some (r, s2) ∧
          s2.AT = s1.AT ∧ s2.pointer = s1.pointer ∧ s2.NUM_PAGES = s1.NUM_PAGES ∧
          (s2.CONTAINER id).usage = (s.CONTAINER id).usage + 1 ∧
          (s2.CONTAINER id).quota = (s.CONTAINER id).quota ∧
          (s2.CONTAINER id).parent = (s.CONTAINER id).parent ∧
          (s2.CONTAINER id).nchildren = (s.CONTAINER id).nchildren ∧
          (s2.CONTAINER id).used = (s.CONTAINER id).used ∧
          ∀ id', id' ≠ id → s2.CONTAINER id' = s.CONTAINER id')) := by
  refine ⟨?_, ?_⟩
  · intro h
    unfold container_alloc
    rw [if_neg (not_lt.mpr h)]
  · intro h
    refine ⟨?_, ?_, ?_⟩
    · intro hp
      unfold container_alloc pmem_alloc
      rw [if_pos h, hp]
    · intro s1 hp
      refine ⟨?_, palloc_CONTAINER fuel s 0 s1 hp⟩
      unfold container_alloc pmem_alloc
      rw [if_pos h, hp]
      simp
    · intro r s1 hp hr
      have hc := palloc_CONTAINER fuel s r s1 hp
      let c1 : SContainer := ⟨(s1.CONTAINER id).quota, (s1.CONTAINER id).usage + 1,
        (s1.CONTAINER id).parent, (s1.CONTAINER id).nchildren, (s1.CONTAINER id).used⟩
      refine ⟨{ s1 with CONTAINER := Function.update s1.CONTAINER id c1 }, ?_, rfl, rfl, rfl, ?_⟩
      · unfold container_alloc pmem_alloc
        rw [if_pos h, hp]
        simp only [ne_eq, hr, not_false_eq_true, if_true]
      · simp only [Function.update_same, hc, c1]
        refine ⟨trivial, trivial, trivial, trivial, trivial, fun id' hne => ?_⟩
        rw [Function.update_noteq hne]

theorem container_alloc_spec_witness :
    ∃ s2, container_alloc 1 0 demoState = some (262144, s2) ∧
      s2.AT = (allocState demoState 262144).AT ∧
      s2.pointer = (allocState demoState 262144).pointer ∧
      s2.NUM_PAGES = (allocState demoState 262144).NUM_PAGES ∧
      (s2.CONTAINER 0).usage = (demoState.CONTAINER 0).usage + 1 ∧
      (s2.CONTAINER 0).quota = (demoState.CONTAINER 0).quota ∧
      (s2.CONTAINER 0).parent = (demoState.CONTAINER 0).parent ∧
      (s2.CONTAINER 0).nchildren = (demoState.CONTAINER 0).nchildren ∧
      (s2.CONTAINER 0).used = (demoState.CONTAINER 0).used ∧
      ∀ id', id' ≠ 0 → s2.CONTAINER id' = demoState.CONTAINER id' :=
  ((container_alloc_spec 1 0 demoState).2 (by decide)).2.2 262144
    (allocState demoState 262144) rfl (by decide)

/-! ## `container_init` on the boot state -/

theorem container_init_boot (mm : List MemRow) :
    container_init mm boot =
      { pmem_init mm boot with
        CONTAINER := Function.update (pmem_init mm boot).CONTAINER 0 ⟨0, 0, 0, 0, 1⟩ } := rfl

theorem with_CONTAINER_proj (s : KState) (c : Nat → SContainer) :
    ({ s with CONTAINER := c } : KState).NUM_PAGES = s.NUM_PAGES ∧
    ({ s with CONTAINER := c } : KState).AT = s.AT ∧
    ({ s with CONTAINER := c } : KState).pointer = s.pointer ∧
    ({ s with CONTAINER := c } : KState).CONTAINER = c := ⟨rfl, rfl, rfl, rfl⟩

theorem container_init_boot_fields (mm : List MemRow) :
    (container_init mm boot).NUM_PAGES = (pmem_init mm boot).NUM_PAGES ∧
    (container_init mm boot).AT = (pmem_init mm boot).AT ∧
    (container_init mm boot).pointer = (pmem_init mm boot).pointer ∧
    (container_init mm boot).CONTAINER =
      Function.update (pmem_init mm boot).CONTAINER 0 ⟨0, 0, 0, 0, 1⟩ := by
  rw [container_init_boot]
  exact with_CONTAINER_proj _ _

theorem container_init_boot_CONTAINER (mm : List MemRow) (id : Nat) :
    (container_init mm boot).CONTAINER id = if id = 0 then ⟨0, 0, 0, 0, 1⟩ else ⟨0, 0, 0, 0, 0⟩ := by
  rw [(container_init_boot_fields mm).2.2.2, (pmem_init_rest mm boot).2.2]
  by_cases h : id = 0
  · subst h
    rw [Function.update_same, if_pos rfl]
  · rw [Function.update_noteq h, if_neg h]
    rfl

theorem pmem_init_allocated_zero (mm : List MemRow) (j : Nat) :
    ((pmem_init mm boot).AT j).allocated = 0 := by
  by_cases hu : VM_USERLO_PI ≤ j ∧ j < VM_USERHI_PI
  · rcases pmem_init_AT_user mm boot j hu with h | h <;> rw [h.1]
  · by_cases hk : j < VM_USERLO_PI ∨ (VM_USERHI_PI ≤ j ∧ j < pmem_init_nps mm)
    · rw [pmem_init_AT_kernel mm boot j hk]
    · rw [pmem_init_AT_above mm boot j (by omega) (by omega)]
      rfl

theorem filter_range_ge (p : Nat → Bool) (a : Nat) :
    ∀ n, (∀ i, i < n → p i = decide (a ≤ i)) →
      ((List.range n).filter p).length = n - a := by
  intro n
  induction n with
  | zero => intro _; simp
  | succ n ih =>
    intro h
    rw [List.range_succ, List.filter_append, List.length_append,
      ih (fun i hi => h i (by omega))]
    have hn := h n (by omega)
    by_cases han : a ≤ n
    · rw [decide_eq_true han] at hn
      simp only [List.filter_cons, hn, if_true, List.filter_nil, List.length_singleton]
      omega
    · rw [decide_eq_false han] at hn
      simp only [List.filter_cons, hn, List.filter_nil, List.length_nil]
      simp
      omega

theorem single_row_user (s : KState) (j : Nat) (hj : VM_USERLO_PI ≤ j ∧ j < VM_USERHI_PI) :
    (pmem_init [⟨0x0, 0xF0000000, true⟩] s).AT j = ⟨2, 0⟩ := by
  rcases pmem_init_AT_user [⟨0x0, 0xF0000000, true⟩] s j hj with h | h
  · exact h.1
  · exfalso
    apply h.2
    refine ⟨0, by decide, ?_, by decide, fun k h1 h2 => ?_⟩
    · have e1 : get_mms [⟨0x0, 0xF0000000, true⟩] 0 = 0 := by decide
      have e2 : get_mml [⟨0x0, 0xF0000000, true⟩] 0 = 4026531840 := by decide
      unfold covers
      rw [e1, e2]
      simp only [VM_USERHI_PI_eq, VM_USERLO_PI_eq, U32_eq, PAGESIZE_eq] at *
      omega
    · simp at h2
      omega

theorem single_row_isFree (j : Nat) :
    isFree (pmem_init [⟨0x0, 0xF0000000, true⟩] boot) j ↔
      (VM_USERLO_PI ≤ j ∧ j < VM_USERHI_PI) := by
  have hn : pmem_init_nps [⟨0x0, 0xF0000000, true⟩] = 983040 := by decide
  unfold isFree at_is_norm at_is_allocated
  by_cases hu : VM_USERLO_PI ≤ j ∧ j < VM_USERHI_PI
  · rw [single_row_user boot j hu]
    simp [hu]
  · by_cases hk : j < VM_USERLO_PI
    · rw [pmem_init_AT_kernel _ boot j (Or.inl hk)]
      simp [hu]
    · rw [pmem_init_AT_above _ boot j (by omega)
        (by rw [hn]; simp only [VM_USERHI_PI_eq, VM_USERLO_PI_eq] at *; omega)]
      simp [hu, boot]

/-- C1 (evaluation at the failing input): for the map with the single usable
row `[0x0, 0xF0000000)`, `container_init` run on the boot state stores root
quota 0, although 720896 pages are Normal and unallocated in the table that
`pmem_init` has built; the other four fields are as the claim says. -/
theorem container_init_root_quota_zero :
    ((container_init [⟨0x0, 0xF0000000, true⟩] boot).CONTAINER 0).quota = 0 ∧
    normFreeCount (pmem_init [⟨0x0, 0xF0000000, true⟩] boot) = 720896 ∧
    (container_init [⟨0x0, 0xF0000000, true⟩] boot).AT
      = (pmem_init [⟨0x0, 0xF0000000, true⟩] boot).AT ∧
    ((container_init [⟨0x0, 0xF0000000, true⟩] boot).CONTAINER 0).usage = 0 ∧
    ((container_init [⟨0x0, 0xF0000000, true⟩] boot).CONTAINER 0).parent = 0 ∧
    ((container_init [⟨0x0, 0xF0000000, true⟩] boot).CONTAINER 0).nchildren = 0 ∧
    ((container_init [⟨0x0, 0xF0000000, true⟩] boot).CONTAINER 0).used = 1 := by
  rw [container_init_boot_CONTAINER, if_pos rfl]
  refine ⟨rfl, ?_, (container_init_boot_fields _).2.1, rfl, rfl, rfl, rfl⟩
  unfold normFreeCount
  rw [(pmem_init_rest _ _).1]
  have hn : pmem_init_nps [⟨0x0, 0xF0000000, true⟩] = 983040 := by decide
  rw [hn, filter_range_ge _ 262144 983040]
  intro i hi
  by_cases h : 262144 ≤ i
  · rw [decide_eq_true h, decide_eq_true_iff, single_row_isFree]
    simp only [VM_USERHI_PI_eq, VM_USERLO_PI_eq]
    omega
  · rw [decide_eq_false h, decide_eq_false_iff_not, single_row_isFree]
    simp only [VM_USERHI_PI_eq, VM_USERLO_PI_eq]
    omega

/-! ## States reachable through the container operations -/

theorem container_split_state (N M id q : Nat) (s : KState) :
    (container_split N M id q s).2 = s := by
  unfold container_split
  simp only []
  split_ifs <;> rfl

/-- Starting from `container_init` on the boot state, no container operation
changes the state: every quota is 0, so `container_alloc` never calls the page
allocator, and no page is ever allocated, so `container_free` finds nothing to
free. -/
theorem CReach_eq (N M : Nat) (mm : List MemRow) (s : KState) (h : CReach N M mm boot s) :
    s = container_init mm boot := by
  induction h with
  | init => rfl
  | @alloc s s' fuel id r hs hp ih =>
    subst ih
    unfold container_alloc at hp
    have hq : ¬ ((container_init mm boot).CONTAINER id).usage
        < ((container_init mm boot).CONTAINER id).quota := by
      rw [container_init_boot_CONTAINER]
      split_ifs <;> decide
    rw [if_neg hq] at hp
    simp only [Option.some.injEq, Prod.mk.injEq] at hp
    exact hp.2.symm
  | @free s id page_index hs ih =>
    subst ih
    unfold container_free
    have ha : at_is_allocated (container_init mm boot) page_index = 0 := by
      unfold at_is_allocated
      rw [(container_init_boot_fields mm).2.1, pmem_init_allocated_zero]
      rfl
    rw [if_neg (by rw [ha]; decide)]
  | @split s id q hs ih =>
    rw [container_split_state]
    exact ih

/-! ## How the scan of `palloc` proceeds -/

theorem palloc_loop_hit (fuel : Nat) (s : KState) (k : Nat) (h : isFree s k) :
    palloc_loop (fuel + 1) s k = some (k, allocState s k) := by
  rw [palloc_loop_succ, if_pos h]

theorem palloc_loop_skip (fuel : Nat) (s : KState) (i : Nat) (h : ¬ isFree s i)
    (hp : scanNext i ≠ s.pointer) :
    palloc_loop (fuel + 1) s i = palloc_loop fuel s (scanNext i) := by
  rw [palloc_loop_succ, if_neg h, if_neg hp]

theorem scanNext_plain (i : Nat) (h1 : i + 1 < U32) (h2 : i + 1 ≠ VM_USERHI_PI) :
    scanNext i = i + 1 := by
  unfold scanNext
  rw [Nat.mod_eq_of_lt h1, if_neg h2]

theorem scanNext_ne_hi (i : Nat) : scanNext i ≠ VM_USERHI_PI := by
  unfold scanNext
  split_ifs with h
  · decide
  · exact h

/-- A stretch of `n` indices without a free page, not passing the wrap point
or the cursor, costs `n` iterations. -/
theorem palloc_loop_stretch (s : KState) (n : Nat) :
    ∀ (i fuel : Nat),
      (∀ j, i ≤ j → j < i + n → ¬ isFree s j) →
      (∀ j, i < j → j ≤ i + n → j ≠ VM_USERHI_PI ∧ j ≠ s.pointer) →
      i + n < U32 →
      palloc_loop (fuel + n) s i = palloc_loop fuel s (i + n) := by
  induction n with
  | zero => intro i fuel _ _ _; rfl
  | succ n ih =>
    intro i fuel hfree hpos hlt
    have hnext : scanNext i = i + 1 :=
      scanNext_plain i (by omega) (hpos (i + 1) (by omega) (by omega)).1
    have e : fuel + (n + 1) = (fuel + n) + 1 := by omega
    rw [e, palloc_loop_skip _ s i (hfree i (le_refl _) (by omega))
      (by rw [hnext]; exact (hpos (i + 1) (by omega) (by omega)).2), hnext,
      ih (i + 1) fuel (fun j h1 h2 => hfree j (by omega) (by omega))
        (fun j h1 h2 => hpos j (by omega) (by omega)) (by omega)]
    have e2 : i + 1 + n = i + (n + 1) := by omega
    rw [e2]

/-- With the cursor at `VM_USERHI_PI` and no free page anywhere, the loop of
`palloc` never meets its exit test. -/
theorem palloc_loop_diverges (s : KState) (hp : s.pointer = VM_USERHI_PI)
    (hnf : ∀ j, ¬ isFree s j) : ∀ (fuel i : Nat), palloc_loop fuel s i = none := by
  intro fuel
  induction fuel with
  | zero => intro i; rfl
  | succ fuel ih =>
    intro i
    rw [palloc_loop_skip fuel s i (hnf i) (by rw [hp]; exact scanNext_ne_hi i)]
    exact ih _

theorem palloc_scan_succ (fuel : Nat) (s : KState) (i : Nat) :
    palloc_scan (fuel + 1) s i =
      if isFree s i then [i]
      else if scanNext i = s.pointer then [i]
      else i :: palloc_scan fuel s (scanNext i) := rfl

theorem palloc_scan_runaway (s : KState) (hp : s.pointer = VM_USERHI_PI)
    (hnf : ∀ j, VM_USERHI_PI ≤ j → ¬ isFree s j) :
    ∀ (n i : Nat), VM_USERHI_PI ≤ i → i + n ≤ U32 → palloc_scan n s i = List.range' i n := by
  intro n
  induction n with
  | zero => intro i _ _; rfl
  | succ n ih =>
    intro i hi hle
    rw [palloc_scan_succ, if_neg (hnf i hi), if_neg (by rw [hp]; exact scanNext_ne_hi i)]
    cases n with
    | zero => rfl
    | succ n =>
      have hnext : scanNext i = i + 1 :=
        scanNext_plain i (by omega) (by omega)
      rw [hnext, ih (i + 1) (by omega) (by omega)]
      rfl

theorem isFree_allocState (s : KState) (k j : Nat) :
    isFree (allocState s k) j ↔ isFree s j ∧ j ≠ k := by
  unfold isFree at_is_norm at_is_allocated
  rw [allocState_AT]
  by_cases h : j = k
  · subst h
    simp
  · simp [h]

theorem pfree_AT (i : Nat) (s : KState) (j : Nat) :
    (pfree i s).AT j = if j = i then ⟨(s.AT i).perm, 0⟩ else s.AT j :=
  at_set_allocated_AT i 0 s j

/-! ## The cursor value `VM_USERHI_PI` -/

theorem palloc_eq_loop (fuel : Nat) (s : KState) (h : s.NUM_PAGES ≠ 0) :
    palloc fuel s = palloc_loop fuel s s.pointer := by
  unfold palloc get_nps
  rw [if_neg h]

theorem allocState_rest (s : KState) (k : Nat) :
    (allocState s k).NUM_PAGES = s.NUM_PAGES ∧ (allocState s k).pointer = (k + 1) % U32 ∧
    (allocState s k).CONTAINER = s.CONTAINER := ⟨rfl, rfl, rfl⟩

theorem last_page_row_isFree (j : Nat) :
    isFree (pmem_init [⟨0xEFFFF000, 0x1000, true⟩] boot) j ↔ j = 983039 := by
  have hn : pmem_init_nps [⟨0xEFFFF000, 0x1000, true⟩] = 983040 := by decide
  have e1 : get_mms [⟨0xEFFFF000, 0x1000, true⟩] 0 = 4026527744 := by decide
  have e2 : get_mml [⟨0xEFFFF000, 0x1000, true⟩] 0 = 4096 := by decide
  have hcov : covers [⟨0xEFFFF000, 0x1000, true⟩] 0 j ↔ j = 983039 := by
    unfold covers
    rw [e1, e2]
    simp only [U32_eq, PAGESIZE_eq]
    omega
  unfold isFree at_is_norm at_is_allocated
  by_cases hu : VM_USERLO_PI ≤ j ∧ j < VM_USERHI_PI
  · rcases pmem_init_AT_user [⟨0xEFFFF000, 0x1000, true⟩] boot j hu with h | h
    · rw [h.1]
      obtain ⟨i, hi, hc, _, _⟩ := h.2
      have hi0 : i = 0 := by simp at hi; omega
      subst hi0
      simp [hcov.1 hc]
    · rw [h.1]
      have hne : j ≠ 983039 := by
        intro hj
        apply h.2
        exact ⟨0, by decide, hcov.2 hj, by decide, fun k h1 h2 => by simp at h2; omega⟩
      simp [hne]
  · have hne : j ≠ 983039 := by
      simp only [VM_USERHI_PI_eq, VM_USERLO_PI_eq] at hu
      omega
    by_cases hk : j < VM_USERLO_PI
    · rw [pmem_init_AT_kernel _ boot j (Or.inl hk)]
      simp [hne]
    · rw [pmem_init_AT_above _ boot j (by omega)
        (by rw [hn]; simp only [VM_USERHI_PI_eq, VM_USERLO_PI_eq] at *; omega)]
      simp [hne, boot]

/-- C3 (evaluation at the failing input): with the single usable row
`[0xEFFFF000, 0xF0000000)` the first `palloc` returns page 983039, the last
page of the user range, and leaves the cursor at `VM_USERHI_PI` = 983040.  The
next `palloc` does not finish within any number of iterations, and the indices
it reads are 983040, 983041, ... : the first `n` reads are exactly these for
every `n` up to 2^32 - 983040, none of them inside the user range or below the
page count 983040, and more of them than `VM_USERHI_PI - VM_USERLO_PI`. -/
theorem palloc_scan_leaves_user_range :
    ∃ s, palloc 720896 (pmem_init [⟨0xEFFFF000, 0x1000, true⟩] boot) = some (983039, s) ∧
      PReach [⟨0xEFFFF000, 0x1000, true⟩] s ∧
      s.NUM_PAGES = 983040 ∧
      s.pointer = VM_USERHI_PI ∧
      (∀ fuel, palloc fuel s = none) ∧
      (∀ n, n ≤ U32 - VM_USERHI_PI →
        palloc_scan n s s.pointer = List.range' VM_USERHI_PI n) ∧
      palloc_scan 3 s s.pointer = [983040, 983041, 983042] := by
  have hnp : (pmem_init [⟨0xEFFFF000, 0x1000, true⟩] boot).NUM_PAGES = 983040 := by
    rw [(pmem_init_rest _ _).1]; decide
  have hptr : (pmem_init [⟨0xEFFFF000, 0x1000, true⟩] boot).pointer = 262144 := by
    rw [(pmem_init_rest _ _).2.1]; decide
  have hfirst : palloc 720896 (pmem_init [⟨0xEFFFF000, 0x1000, true⟩] boot) =
      some (983039, allocState (pmem_init [⟨0xEFFFF000, 0x1000, true⟩] boot) 983039) := by
    rw [palloc_eq_loop _ _ (by rw [hnp]; decide), hptr]
    have hs := palloc_loop_stretch (pmem_init [⟨0xEFFFF000, 0x1000, true⟩] boot) 720895
      262144 1
      (fun j h1 h2 => by rw [last_page_row_isFree]; omega)
      (fun j h1 h2 => by rw [hptr, VM_USERHI_PI_eq]; omega)
      (by rw [U32_eq]; omega)
    rw [hs]
    exact palloc_loop_hit 0 _ 983039 ((last_page_row_isFree 983039).2 rfl)
  have hp2 : (allocState (pmem_init [⟨0xEFFFF000, 0x1000, true⟩] boot) 983039).pointer
      = VM_USERHI_PI := by
    rw [(allocState_rest _ _).2.1]; decide
  have hnf : ∀ j, ¬ isFree (allocState (pmem_init [⟨0xEFFFF000, 0x1000, true⟩] boot) 983039) j := by
    intro j hj
    rw [isFree_allocState, last_page_row_isFree] at hj
    exact hj.2 hj.1
  have hscan := palloc_scan_runaway _ hp2 (fun j _ => hnf j)
  refine ⟨_, hfirst, PReach.alloc PReach.init hfirst,
    by rw [(allocState_rest _ _).1, hnp], hp2, ?_, ?_, ?_⟩
  · intro fuel
    rw [palloc_eq_loop _ _ (by rw [(allocState_rest _ _).1, hnp]; decide)]
    exact palloc_loop_diverges _ hp2 hnf fuel _
  · intro n hn
    rw [hp2]
    exact hscan n VM_USERHI_PI (le_refl _)
      (by simp only [VM_USERHI_PI_eq, U32_eq] at *; omega)
  · rw [hp2, hscan 3 VM_USERHI_PI (le_refl _) (by decide)]
    decide

/-! ## Allocating every page, one call after the other -/

theorem palloc_times_succ (fuel n : Nat) (s : KState) (r : Nat) (s1 : KState)
    (h : palloc fuel s = some (r, s1)) :
    palloc_times fuel (n + 1) s = palloc_times fuel n s1 := by
  show (match palloc fuel s with
    | none => none
    | some (_, s1) => palloc_times fuel n s1) = palloc_times fuel n s1
  rw [h]

/-- While every index from the cursor up to the end of the user range is
free, each call of `palloc` returns the cursor after one iteration. -/
theorem palloc_run (mm : List MemRow) (n : Nat) :
    ∀ (s : KState), PReach mm s → s.NUM_PAGES ≠ 0 → s.pointer + n ≤ VM_USERHI_PI →
      (∀ j, isFree s j ↔ s.pointer ≤ j ∧ j < VM_USERHI_PI) →
      ∃ t, palloc_times 1 n s = some t ∧ PReach mm t ∧ t.NUM_PAGES = s.NUM_PAGES ∧
        t.pointer = s.pointer + n ∧
        (∀ j, isFree t j ↔ s.pointer + n ≤ j ∧ j < VM_USERHI_PI) ∧
        (∀ j, (t.AT j).perm = (s.AT j).perm) := by
  induction n with
  | zero =>
    intro s hs _ _ hfree
    exact ⟨s, rfl, hs, rfl, rfl, hfree, fun _ => rfl⟩
  | succ n ih =>
    intro s hs hnp hle hfree
    have hcur : isFree s s.pointer := (hfree s.pointer).2 ⟨le_refl _, by omega⟩
    have hstep : palloc 1 s = some (s.pointer, allocState s s.pointer) := by
      rw [palloc_eq_loop 1 s hnp]
      exact palloc_loop_hit 0 s s.pointer hcur
    have hptr : (allocState s s.pointer).pointer = s.pointer + 1 := by
      rw [(allocState_rest _ _).2.1]
      apply Nat.mod_eq_of_lt
      simp only [VM_USERHI_PI_eq, U32_eq] at *
      omega
    have hfree1 : ∀ j, isFree (allocState s s.pointer) j ↔
        (allocState s s.pointer).pointer ≤ j ∧ j < VM_USERHI_PI := by
      intro j
      rw [isFree_allocState, hfree j, hptr]
      omega
    obtain ⟨t, h1, h2, h3, h4, h5, h6⟩ := ih (allocState s s.pointer)
      (PReach.alloc hs hstep) (by rw [(allocState_rest _ _).1]; exact hnp)
      (by rw [hptr]; omega) hfree1
    refine ⟨t, ?_, h2, ?_, ?_, ?_, ?_⟩
    · rw [palloc_times_succ 1 n s _ _ hstep]
      exact h1
    · rw [h3, (allocState_rest _ _).1]
    · rw [h4, hptr]; omega
    · intro j
      rw [h5 j, hptr]
      omega
    · intro j
      rw [h6 j, allocState_AT]
      split_ifs with hj
      · rw [hj]
      · rfl

/-- C2 (evaluation at the failing input): with the single usable row
`[0x0, 0xF0000000)`, 720896 calls of `palloc` after `pmem_init` allocate every
Normal page and leave the cursor at `VM_USERHI_PI`; in the state reached no
index of the user range is Normal and unallocated, and the next `palloc` does
not return 0: it does not return within any number of loop iterations. -/
theorem palloc_after_exhaustion_never_returns :
    ∃ s, palloc_times 1 720896 (pmem_init [⟨0x0, 0xF0000000, true⟩] boot) = some s ∧
      PReach [⟨0x0, 0xF0000000, true⟩] s ∧
      0 < s.NUM_PAGES ∧
      (∀ j, VM_USERLO_PI ≤ j → j < VM_USERHI_PI → ¬ isFree s j) ∧
      s.pointer = VM_USERHI_PI ∧
      ∀ fuel, palloc fuel s = none := by
  have hnp : (pmem_init [⟨0x0, 0xF0000000, true⟩] boot).NUM_PAGES = 983040 := by
    rw [(pmem_init_rest _ _).1]; decide
  have hptr : (pmem_init [⟨0x0, 0xF0000000, true⟩] boot).pointer = VM_USERLO_PI :=
    (pmem_init_rest _ _).2.1
  obtain ⟨t, h1, h2, h3, h4, h5, _⟩ := palloc_run [⟨0x0, 0xF0000000, true⟩] 720896
    (pmem_init [⟨0x0, 0xF0000000, true⟩] boot) PReach.init (by rw [hnp]; decide)
    (by rw [hptr]; decide)
    (fun j => by rw [single_row_isFree, hptr])
  have hp : t.pointer = VM_USERHI_PI := by rw [h4, hptr]; decide
  have hnf : ∀ j, ¬ isFree t j := by
    intro j hj
    have := (h5 j).1 hj
    rw [hptr] at this
    simp only [VM_USERHI_PI_eq, VM_USERLO_PI_eq] at this
    omega
  refine ⟨t, h1, h2, by rw [h3, hnp]; decide, fun j _ _ => hnf j, hp, fun fuel => ?_⟩
  rw [palloc_eq_loop fuel t (by rw [h3, hnp]; decide)]
  exact palloc_loop_diverges t hp hnf fuel _

/-! ## First fit in circular order -/

theorem scanNext_hi_pred : scanNext (VM_USERHI_PI - 1) = VM_USERLO_PI := by decide

theorem isFree_pfree_self (s : KState) (p : Nat) (hp : 1 < (s.AT p).perm) :
    isFree (pfree p s) p := by
  unfold isFree at_is_norm at_is_allocated
  rw [pfree_AT, if_pos rfl]
  simp [hp]

theorem isFree_pfree_other (s : KState) (p j : Nat) (hj : j ≠ p) :
    isFree (pfree p s) j ↔ isFree s j := by
  unfold isFree at_is_norm at_is_allocated
  rw [pfree_AT, if_neg hj]

theorem pfree_rest (i : Nat) (s : KState) :
    (pfree i s).NUM_PAGES = s.NUM_PAGES ∧ (pfree i s).pointer = s.pointer ∧
    (pfree i s).CONTAINER = s.CONTAINER := ⟨rfl, rfl, rfl⟩

/-- The path of the scan from the cursor `VM_USERHI_PI`: with the single usable row
`[0x0, 0xF0000000)`, after 720896 calls of `palloc` have allocated every Normal
page and page 262144 has been freed, page 262144 is the first free page in
circular order from the cursor, which is `VM_USERHI_PI`.  The next `palloc`
starts reading at index 983040 and walks upwards: for every `n` below
2^32 - 983040 it has not returned after `n` iterations and the indices it has
read are 983040, 983041, ..., all above the user range and not below the page
count 983040 (it returns page 262144 after the loop variable has wrapped at
2^32, see `palloc_loop_first_at_hi`). -/
theorem palloc_after_free_scans_outside :
    ∃ t, palloc_times 1 720896 (pmem_init [⟨0x0, 0xF0000000, true⟩] boot) = some t ∧
      PReach [⟨0x0, 0xF0000000, true⟩] (pfree 262144 t) ∧
      (pfree 262144 t).NUM_PAGES = 983040 ∧
      (pfree 262144 t).pointer = VM_USERHI_PI ∧
      firstFreeFrom (pfree 262144 t) (pfree 262144 t).pointer 262144 ∧
      ∀ n, n < U32 - VM_USERHI_PI →
        palloc n (pfree 262144 t) = none ∧
        palloc_scan n (pfree 262144 t) (pfree 262144 t).pointer = List.range' VM_USERHI_PI n := by
  have hnp : (pmem_init [⟨0x0, 0xF0000000, true⟩] boot).NUM_PAGES = 983040 := by
    rw [(pmem_init_rest _ _).1]; decide
  have hptr : (pmem_init [⟨0x0, 0xF0000000, true⟩] boot).pointer = VM_USERLO_PI :=
    (pmem_init_rest _ _).2.1
  obtain ⟨t, h1, h2, h3, h4, h5, h6⟩ := palloc_run [⟨0x0, 0xF0000000, true⟩] 720896
    (pmem_init [⟨0x0, 0xF0000000, true⟩] boot) PReach.init (by rw [hnp]; decide)
    (by rw [hptr]; decide)
    (fun j => by rw [single_row_isFree, hptr])
  have hp : (pfree 262144 t).pointer = VM_USERHI_PI := by
    rw [(pfree_rest _ _).2.1, h4, hptr]; decide
  have hnf : ∀ j, ¬ isFree t j := by
    intro j hj
    have := (h5 j).1 hj
    rw [hptr] at this
    simp only [VM_USERHI_PI_eq, VM_USERLO_PI_eq] at this
    omega
  have hperm : 1 < (t.AT 262144).perm := by
    rw [h6, single_row_user boot 262144 (by decide)]
    decide
  have hfree : ∀ j, isFree (pfree 262144 t) j ↔ j = 262144 := by
    intro j
    by_cases hj : j = 262144
    · subst hj
      exact ⟨fun _ => rfl, fun _ => isFree_pfree_self t 262144 hperm⟩
    · rw [isFree_pfree_other t 262144 j hj]
      exact ⟨fun h => absurd h (hnf j), fun h => absurd h hj⟩
  have hnz : (pfree 262144 t).NUM_PAGES ≠ 0 := by
    rw [(pfree_rest _ _).1, h3, hnp]; decide
  refine ⟨t, h1, PReach.free 262144 h2, by rw [(pfree_rest _ _).1, h3, hnp], hp, ?_,
    fun n hn => ⟨?_, ?_⟩⟩
  · rw [hp]
    refine ⟨by decide, by decide, (hfree 262144).2 rfl, fun h => ?_, fun _ => ⟨?_, ?_⟩⟩
    · exact absurd h (by decide)
    · intro j h1 h2
      omega
    · intro j h1 h2 hf
      have := (hfree j).1 hf
      simp only [VM_USERLO_PI_eq] at h1
      omega
  · rw [palloc_eq_loop n _ hnz, hp]
    have hs := palloc_loop_stretch (pfree 262144 t) n VM_USERHI_PI 0
      (fun j h1 h2 hf => by
        have := (hfree j).1 hf
        simp only [VM_USERHI_PI_eq] at h1
        omega)
      (fun j h1 h2 => ⟨by omega, by rw [hp]; omega⟩)
      (by simp only [VM_USERHI_PI_eq, U32_eq] at *; omega)
    rw [Nat.zero_add] at hs
    rw [hs]
    rfl
  · rw [hp]
    exact palloc_scan_runaway _ hp
      (fun j h1 hf => by
        have := (hfree j).1 hf
        simp only [VM_USERHI_PI_eq] at h1
        omega)
      n VM_USERHI_PI (le_refl _)
      (by simp only [VM_USERHI_PI_eq, U32_eq] at *; omega)

theorem palloc_loop_exit (fuel : Nat) (s : KState) (i : Nat) (h : ¬ isFree s i)
    (hp : scanNext i = s.pointer) :
    palloc_loop (fuel + 1) s i = some (0, s) := by
  rw [palloc_loop_succ, if_neg h, if_pos hp]

/-- With the cursor inside the user range and no free page in that range,
`palloc` returns 0 after one full round and leaves the state as it was. -/
theorem palloc_exhausted_inside (s : KState) (hn : s.NUM_PAGES ≠ 0)
    (hc : VM_USERLO_PI ≤ s.pointer ∧ s.pointer < VM_USERHI_PI)
    (hnf : ∀ j, VM_USERLO_PI ≤ j → j < VM_USERHI_PI → ¬ isFree s j) :
    ∀ e, palloc (e + (VM_USERHI_PI - VM_USERLO_PI)) s = some (0, s) := by
  intro e
  rw [palloc_eq_loop _ s hn]
  by_cases hlo : s.pointer = VM_USERLO_PI
  · have hs := palloc_loop_stretch s (VM_USERHI_PI - 1 - VM_USERLO_PI) s.pointer (e + 1)
      (fun j h1 h2 => hnf j (by omega) (by omega))
      (fun j h1 h2 => ⟨by omega, by omega⟩)
      (by simp only [VM_USERHI_PI_eq, VM_USERLO_PI_eq, U32_eq] at *; omega)
    have e1 : e + (VM_USERHI_PI - VM_USERLO_PI) = e + 1 + (VM_USERHI_PI - 1 - VM_USERLO_PI) := by
      have h1 := VM_USERHI_PI_eq
      have h2 := VM_USERLO_PI_eq
      omega
    have e2 : s.pointer + (VM_USERHI_PI - 1 - VM_USERLO_PI) = VM_USERHI_PI - 1 := by
      rw [hlo]; decide
    rw [e1, hs, e2]
    exact palloc_loop_exit e s _ (hnf _ (by decide) (by decide))
      (by rw [scanNext_hi_pred, hlo])
  · have hs1 := palloc_loop_stretch s (VM_USERHI_PI - 1 - s.pointer) s.pointer
      (e + 1 + (s.pointer - 1 - VM_USERLO_PI) + 1)
      (fun j h1 h2 => hnf j (by omega) (by omega))
      (fun j h1 h2 => ⟨by omega, by omega⟩)
      (by simp only [VM_USERHI_PI_eq, U32_eq] at *; omega)
    have hw := palloc_loop_skip (e + 1 + (s.pointer - 1 - VM_USERLO_PI)) s (VM_USERHI_PI - 1)
      (hnf _ (by decide) (by decide))
      (by rw [scanNext_hi_pred]; omega)
    have hs2 := palloc_loop_stretch s (s.pointer - 1 - VM_USERLO_PI) VM_USERLO_PI (e + 1)
      (fun j h1 h2 => hnf j h1 (by omega))
      (fun j h1 h2 => ⟨by omega, by omega⟩)
      (by simp only [VM_USERHI_PI_eq, VM_USERLO_PI_eq, U32_eq] at *; omega)
    have hnext : scanNext (s.pointer - 1) = s.pointer := by
      have := scanNext_plain (s.pointer - 1)
        (by simp only [VM_USERHI_PI_eq, U32_eq] at *; omega) (by omega)
      rw [this]
      omega
    have e1 : e + (VM_USERHI_PI - VM_USERLO_PI)
        = e + 1 + (s.pointer - 1 - VM_USERLO_PI) + 1 + (VM_USERHI_PI - 1 - s.pointer) := by
      simp only [VM_USERHI_PI_eq, VM_USERLO_PI_eq] at *
      omega
    have e2 : s.pointer + (VM_USERHI_PI - 1 - s.pointer) = VM_USERHI_PI - 1 := by omega
    have e3 : VM_USERLO_PI + (s.pointer - 1 - VM_USERLO_PI) = s.pointer - 1 := by omega
    rw [e1, hs1, e2, hw, scanNext_hi_pred, hs2, e3]
    exact palloc_loop_exit e s _ (hnf _ (by omega) (by omega)) hnext

/-- At a state in which container 0 has quota left (the boot sequence never
produces one, its root quota being 0), a page allocated through container 0
and freed through container 1 leaves container 1 with usage -1. -/
theorem container_free_through_other_container :
    ∃ s1, container_alloc 1 0 demoState = some (262144, s1) ∧
      ((container_free 1 262144 s1).CONTAINER 1).usage = -1 ∧
      ((container_free 1 262144 s1).CONTAINER 0).usage = 1 := by
  refine ⟨_, rfl, ?_, ?_⟩ <;> decide

/-! ## `container_free` -/

/-- A value inside the range of `int` is stored unchanged. -/
theorem wrapInt32_of_range (z : Int) (h1 : -2147483648 ≤ z) (h2 : z ≤ 2147483647) :
    wrapInt32 z = z := by
  unfold wrapInt32 toInt32 toU32
  simp only [U32_eq]
  split_ifs with h <;> omega

/-- Decrementing the least `int` gives the greatest one in the embedding. -/
theorem wrapInt32_below_min : wrapInt32 (-2147483648 - 1) = 2147483647 := by decide

/-- The state `container_free` leaves when the allocated flag of the page is set. -/
theorem container_free_eq (id page_index : Nat) (s : KState)
    (h : at_is_allocated s page_index ≠ 0) :
    container_free id page_index s =
      KState.mk (pfree page_index s).NUM_PAGES (pfree page_index s).AT
        (pfree page_index s).pointer
        (Function.update (pfree page_index s).CONTAINER id
          ⟨(s.CONTAINER id).quota, wrapInt32 ((s.CONTAINER id).usage - 1),
            (s.CONTAINER id).parent, (s.CONTAINER id).nchildren, (s.CONTAINER id).used⟩) := by
  unfold container_free pmem_free
  rw [if_pos h]
  rfl

/-- The state `container_free` leaves when the allocated flag of the page is clear. -/
theorem container_free_noop (id page_index : Nat) (s : KState)
    (h : at_is_allocated s page_index = 0) : container_free id page_index s = s := by
  unfold container_free
  rw [if_neg (by rw [h]; decide)]

/-- C11: if the allocated flag of the page is clear, `container_free(id, page)`
leaves the whole state as it was; if it is set, `container_free` clears the
flag of that page and keeps its permission, changes no other page record,
stores `usage(id) - 1` reduced to the range of `int` in `usage(id)`, which is
`usage(id) - 1` itself whenever `usage(id)` is an `int` above the least one
(the decrement of the least `int` overflows), and changes no other field of
container `id` and no other container. -/
theorem container_free_spec (id page_index : Nat) (s : KState) :
    (at_is_allocated s page_index = 0 → container_free id page_index s = s) ∧
    (at_is_allocated s page_index ≠ 0 →
      (container_free id page_index s).AT page_index = ⟨(s.AT page_index).perm, 0⟩ ∧
      at_is_allocated (container_free id page_index s) page_index = 0 ∧
      (∀ j, j ≠ page_index → (container_free id page_index s).AT j = s.AT j) ∧
      ((container_free id page_index s).CONTAINER id).usage
        = wrapInt32 ((s.CONTAINER id).usage - 1) ∧
      (-2147483648 < (s.CONTAINER id).usage → (s.CONTAINER id).usage ≤ 2147483647 →
        ((container_free id page_index s).CONTAINER id).usage = (s.CONTAINER id).usage - 1) ∧
      ((container_free id page_index s).CONTAINER id).quota = (s.CONTAINER id).quota ∧
      ((container_free id page_index s).CONTAINER id).parent = (s.CONTAINER id).parent ∧
      ((container_free id page_index s).CONTAINER id).nchildren = (s.CONTAINER id).nchildren ∧
      ((container_free id page_index s).CONTAINER id).used = (s.CONTAINER id).used ∧
      (∀ id', id' ≠ id → (container_free id page_index s).CONTAINER id' = s.CONTAINER id') ∧
      (container_free id page_index s).NUM_PAGES = s.NUM_PAGES ∧
      (container_free id page_index s).pointer = s.pointer) := by
  refine ⟨container_free_noop id page_index s, ?_⟩
  intro h
  rw [container_free_eq id page_index s h]
  refine ⟨?_, ?_, ?_, ?_, ?_, ?_, ?_, ?_, ?_, ?_, rfl, rfl⟩
  · show (pfree page_index s).AT page_index = _
    rw [pfree_AT, if_pos rfl]
  · show (if 0 < ((pfree page_index s).AT page_index).allocated then 1 else 0) = 0
    rw [pfree_AT, if_pos rfl]
    rfl
  · intro j hj
    show (pfree page_index s).AT j = _
    rw [pfree_AT, if_neg hj]
  · show (Function.update (pfree page_index s).CONTAINER id _ id).usage = _
    rw [Function.update_same]
  · intro h1 h2
    show (Function.update (pfree page_index s).CONTAINER id _ id).usage = _
    rw [Function.update_same]
    exact wrapInt32_of_range _ (by omega) (by omega)
  · show (Function.update (pfree page_index s).CONTAINER id _ id).quota = _
    rw [Function.update_same]
  · show (Function.update (pfree page_index s).CONTAINER id _ id).parent = _
    rw [Function.update_same]
  · show (Function.update (pfree page_index s).CONTAINER id _ id).nchildren = _
    rw [Function.update_same]
  · show (Function.update (pfree page_index s).CONTAINER id _ id).used = _
    rw [Function.update_same]
  · intro id' hne
    show Function.update (pfree page_index s).CONTAINER id _ id' = _
    rw [Function.update_noteq hne]
    rfl

theorem container_free_spec_witness :
    (container_free 0 262144 (allocState demoUsed 262144)).AT 262144
        = ⟨((allocState demoUsed 262144).AT 262144).perm, 0⟩ ∧
    ((allocState demoUsed 262144).CONTAINER 0).usage = 1 ∧
    ((container_free 0 262144 (allocState demoUsed 262144)).CONTAINER 0).usage = 0 :=
  ⟨((container_free_spec 0 262144 (allocState demoUsed 262144)).2 (by decide)).1,
   by decide,
   ((container_free_spec 0 262144 (allocState demoUsed 262144)).2 (by decide)).2.2.2.2.1
      (by decide) (by decide)⟩

/-! ## `palloc` followed by `pfree` -/

/-- C19: when `palloc` returns a non-zero index `i`, a call `pfree(i)` right
after leaves the record of page `i` (permission and allocated flag) as it was
before the `palloc`, and every other page record as well. -/
theorem palloc_pfree_restores_AT (fuel : Nat) (s : KState) (i : Nat) (s' : KState)
    (h : palloc fuel s = some (i, s')) (hi : i ≠ 0) :
    (pfree i s').AT i = s.AT i ∧ (∀ j, j ≠ i → (pfree i s').AT j = s.AT j) ∧
    (pfree i s').AT = s.AT := by
  rcases palloc_some fuel s i s' h with h1 | h1
  · exact absurd h1.1 hi
  · obtain ⟨hfree, rfl⟩ := h1
    have ha : (s.AT i).allocated = 0 := by
      have h2 := hfree.2
      unfold at_is_allocated at h2
      by_contra hc
      rw [if_pos (Nat.pos_of_ne_zero hc)] at h2
      exact absurd h2 (by decide)
    have hsame : (pfree i (allocState s i)).AT i = s.AT i := by
      rw [pfree_AT, if_pos rfl, allocState_AT, if_pos rfl]
      cases hrec : s.AT i with
      | mk p a =>
        rw [hrec] at ha
        simp only at ha
        rw [ha]
    have hother : ∀ j, j ≠ i → (pfree i (allocState s i)).AT j = s.AT j := by
      intro j hj
      rw [pfree_AT, if_neg hj, allocState_AT, if_neg hj]
    refine ⟨hsame, hother, ?_⟩
    funext j
    by_cases hj : j = i
    · rw [hj]; exact hsame
    · exact hother j hj

theorem palloc_pfree_restores_AT_witness :
    (pfree 262144 (allocState demoState 262144)).AT 262144 = demoState.AT 262144 ∧
    (∀ j, j ≠ 262144 → (pfree 262144 (allocState demoState 262144)).AT j = demoState.AT j) ∧
    (pfree 262144 (allocState demoState 262144)).AT = demoState.AT :=
  palloc_pfree_restores_AT 1 demoState 262144 (allocState demoState 262144) rfl (by decide)

/-! ## `container_split` -/

theorem toU32_zero : toU32 0 = 0 := by decide

theorem container_split_eq (N M id q : Nat) (s : KState) :
    container_split N M id q s =
      if N ≤ (id * M + 1 + container_get_nchildren s id) % U32 then (N, s)
      else ((id * M + 1 + container_get_nchildren s id) % U32, s) := rfl

theorem container_init_nchildren_root (mm : List MemRow) :
    container_get_nchildren (container_init mm boot) 0 = 0 := by
  unfold container_get_nchildren
  rw [container_init_boot_CONTAINER, if_pos rfl]
  exact toU32_zero

theorem container_split_at_init (N M q : Nat) (mm : List MemRow) :
    container_split (N + 2) M 0 q (container_init mm boot) = (1, container_init mm boot) := by
  rw [container_split_eq, container_init_nchildren_root]
  have h1 : (0 * M + 1 + 0) % U32 = 1 := by
    rw [U32_eq]; omega
  rw [h1, if_neg (by omega)]

/-- C12 (evaluation at the failing input): on the state left by
`container_init`, with any capacity `NUM_IDS` of at least 2, the call
`container_split(0, q)` returns child id 1 and hands back the state it was
given: container 1 still has `used = 0` and `quota = 0`, and `nchildren(0)` is
still 0. -/
theorem container_split_writes_nothing (N M q : Nat) (mm : List MemRow) :
    container_split (N + 2) M 0 q (container_init mm boot) = (1, container_init mm boot) ∧
    ((container_split (N + 2) M 0 q (container_init mm boot)).2.CONTAINER 1).used = 0 ∧
    ((container_split (N + 2) M 0 q (container_init mm boot)).2.CONTAINER 1).quota = 0 ∧
    ((container_split (N + 2) M 0 q (container_init mm boot)).2.CONTAINER 0).nchildren = 0 := by
  rw [container_split_at_init]
  refine ⟨rfl, ?_, ?_, ?_⟩
  · show ((container_init mm boot).CONTAINER 1).used = 0
    rw [container_init_boot_CONTAINER, if_neg (by decide)]
  · show ((container_init mm boot).CONTAINER 1).quota = 0
    rw [container_init_boot_CONTAINER, if_neg (by decide)]
  · show ((container_init mm boot).CONTAINER 0).nchildren = 0
    rw [container_init_boot_CONTAINER, if_pos rfl]

/-- C13: when the child id `id * MAX_CHILDREN + 1 + nchildren(id)` (a value
that fits an `unsigned int`) is at least `NUM_IDS`, `container_split(id, q)`
returns `NUM_IDS` and leaves the state, hence every field of every container,
unchanged. -/
theorem container_split_beyond_capacity (N M id q : Nat) (s : KState)
    (hfit : id * M + 1 + container_get_nchildren s id < U32)
    (hcap : N ≤ id * M + 1 + container_get_nchildren s id) :
    (container_split N M id q s).1 = N ∧
    (container_split N M id q s).2 = s ∧
    ∀ id', (container_split N M id q s).2.CONTAINER id' = s.CONTAINER id' := by
  have e : container_split N M id q s = (N, s) := by
    rw [container_split_eq, Nat.mod_eq_of_lt hfit, if_pos hcap]
  rw [e]
  exact ⟨rfl, rfl, fun _ => rfl⟩

theorem container_split_beyond_capacity_witness :
    (container_split 256 16 16 5 boot).1 = 256 ∧
    (container_split 256 16 16 5 boot).2 = boot ∧
    ∀ id', (container_split 256 16 16 5 boot).2.CONTAINER id' = boot.CONTAINER id' :=
  container_split_beyond_capacity 256 16 16 5 boot (by decide) (by decide)

theorem container_split_last_eq (N M id q : Nat) :
    ∀ (n : Nat) (s : KState),
      container_split_last N M id q n s
        = (container_split N M id q (container_split_times N M id q n s)).1 := by
  intro n
  induction n with
  | zero => intro s; rfl
  | succ n ih => intro s; exact ih _

theorem container_split_times_state (N M id q : Nat) :
    ∀ (n : Nat) (s : KState), container_split_times N M id q n s = s := by
  intro n
  induction n with
  | zero => intro s; rfl
  | succ n ih =>
    intro s
    show container_split_times N M id q n (container_split N M id q s).2 = s
    rw [container_split_state, ih]

/-- C14 (as stated, refuted): with `NUM_IDS = 256` and `MAX_CHILDREN = 16`,
the last of 17 successive calls `container_split(0, 0)` on the state left by
`container_init` returns 1, not the sentinel 256. -/
theorem container_split_last_not_sentinel :
    container_split_last 256 16 0 0 16 (container_init [⟨0x0, 0xF0000000, true⟩] boot) = 1 ∧
    container_split_last 256 16 0 0 16 (container_init [⟨0x0, 0xF0000000, true⟩] boot) ≠ 256 := by
  have e : container_split_last 256 16 0 0 16 (container_init [⟨0x0, 0xF0000000, true⟩] boot)
      = 1 := by
    rw [container_split_last_eq, container_split_times_state]
    rw [container_split_at_init 254 16 0 [⟨0x0, 0xF0000000, true⟩]]
  rw [e]
  exact ⟨rfl, by decide⟩

/-- C14 (amended): starting from the state left by `container_init`, for every
quota `q` and every number of earlier calls, a call `container_split(0, q)`
returns the sentinel `NUM_IDS` exactly when the child id it computes,
`1 + nchildren(0)` with the child count stored before that call, is at least
`NUM_IDS`, and returns that child id otherwise; `MAX_CHILDREN` plays no part
for parent 0. -/
theorem container_split_last_result (N M q n : Nat) (mm : List MemRow) :
    container_split_last N M 0 q n (container_init mm boot) =
      if N ≤ (1 + container_get_nchildren
          (container_split_times N M 0 q n (container_init mm boot)) 0) % U32
      then N
      else (1 + container_get_nchildren
          (container_split_times N M 0 q n (container_init mm boot)) 0) % U32 := by
  rw [container_split_last_eq, container_split_eq]
  have e : ∀ c, 0 * M + 1 + c = 1 + c := fun c => by omega
  rw [e]
  split_ifs <;> rfl

/-! ## `container_can_consume` -/

/-- C15 (evaluation at the failing input): with `usage(0) = 1`, `quota(0) = 1`
and `n = 4294967295` the `unsigned int` sum `usage + n` wraps to 0, so
`container_can_consume(0, n)` returns 1 although `usage + n` exceeds the
quota. -/
theorem container_can_consume_wraps :
    container_can_consume demoUsed 0 4294967295 = 1 ∧
    ¬ ((demoUsed.CONTAINER 0).usage + 4294967295 ≤ (demoUsed.CONTAINER 0).quota) := by
  decide

/-- Where `usage` and `quota` are not negative and `usage + n` fits an
`unsigned int`, the test agrees with the comparison over the integers. -/
theorem container_can_consume_no_wrap (s : KState) (id n : Nat)
    (hu : 0 ≤ (s.CONTAINER id).usage) (hq : 0 ≤ (s.CONTAINER id).quota)
    (hq2 : (s.CONTAINER id).quota < 4294967296)
    (hfit : (s.CONTAINER id).usage + n < 4294967296) :
    (container_can_consume s id n = 1 ↔ (s.CONTAINER id).usage + n ≤ (s.CONTAINER id).quota) ∧
    (container_can_consume s id n = 0 ↔ ¬ (s.CONTAINER id).usage + n ≤ (s.CONTAINER id).quota) := by
  unfold container_can_consume toU32
  simp only [U32_eq]
  generalize (s.CONTAINER id).usage = u at *
  generalize (s.CONTAINER id).quota = k at *
  have h1 : (u % 4294967296).toNat = u.toNat := by omega
  have h2 : (k % 4294967296).toNat = k.toNat := by omega
  rw [h1, h2]
  split_ifs with h
  · refine ⟨⟨fun _ => by omega, fun _ => rfl⟩, ⟨fun h0 => absurd h0 (by decide), fun h0 => ?_⟩⟩
    omega
  · refine ⟨⟨fun h0 => absurd h0 (by decide), fun h0 => ?_⟩, ⟨fun _ => by omega, fun _ => rfl⟩⟩
    omega

/-! ## Page directory entries -/

theorem PT_PERM_PTU_eq : PT_PERM_PTU = 0x7 := by decide

/-- C20: for a directory index `d` below 1024, `set_pdir_entry(p, d, page)`
followed by `get_pdir_entry(p, d)` returns `((page << 12) mod 2^32) | 0x7`
whatever the slot held before, `rmv_pdir_entry(p, d)` followed by
`get_pdir_entry(p, d)` returns 0, and neither operation changes another
directory slot (nor the identity tables or the page table memory). -/
theorem pdir_entry_set_rmv (s : PTState) (p d page : Nat) (hd : d < 1024) :
    get_pdir_entry (set_pdir_entry p d page s) p d = ((page <<< 12) % U32) ||| 0x7 ∧
    get_pdir_entry (rmv_pdir_entry p d s) p d = 0 ∧
    (∀ p' d', d' < 1024 → (p' ≠ p ∨ d' ≠ d) →
      get_pdir_entry (set_pdir_entry p d page s) p' d' = get_pdir_entry s p' d' ∧
      get_pdir_entry (rmv_pdir_entry p d s) p' d' = get_pdir_entry s p' d') ∧
    (set_pdir_entry p d page s).IDPTbl = s.IDPTbl ∧
    (set_pdir_entry p d page s).mem = s.mem ∧
    (rmv_pdir_entry p d s).IDPTbl = s.IDPTbl ∧
    (rmv_pdir_entry p d s).mem = s.mem := by
  refine ⟨?_, ?_, ?_, rfl, rfl, rfl, rfl⟩
  · unfold get_pdir_entry set_pdir_entry
    simp only [Function.update_same, PT_PERM_PTU_eq]
  · unfold get_pdir_entry rmv_pdir_entry
    simp only [Function.update_same]
  · intro p' d' hd' hne
    have hcell : p' * 1024 + d' ≠ p * 1024 + d := by omega
    unfold get_pdir_entry set_pdir_entry rmv_pdir_entry
    simp only [Function.update_noteq hcell]
    exact ⟨trivial, trivial⟩

theorem pdir_entry_set_rmv_witness :
    get_pdir_entry (set_pdir_entry 0 0 0x100 ptBoot) 0 0 = ((0x100 <<< 12) % U32) ||| 0x7 :=
  (pdir_entry_set_rmv ptBoot 0 0 0x100 (by decide)).1

/-! ## Page table entries -/

theorem store_word_fields (a v : Nat) (s : PTState) :
    (store_word a v s).pdir_page = s.pdir_page ∧
    (store_word a v s).idptbl_page = s.idptbl_page ∧
    (store_word a v s).num_ids = s.num_ids ∧
    (store_word a v s).PDirPool =
      (if inPDirPool s a then Function.update s.PDirPool ((a - s.pdir_page * 4096) / 4) v
       else s.PDirPool) ∧
    (store_word a v s).IDPTbl =
      (if ¬ inPDirPool s a ∧ inIDPTbl s a
       then Function.update s.IDPTbl ((a - s.idptbl_page * 4096) / 4) v else s.IDPTbl) ∧
    (store_word a v s).mem =
      (if ¬ inPDirPool s a ∧ ¬ inIDPTbl s a then Function.update s.mem a v else s.mem) := by
  by_cases h1 : inPDirPool s a
  · have e : store_word a v s =
        { s with PDirPool := Function.update s.PDirPool ((a - s.pdir_page * 4096) / 4) v } := by
      unfold store_word
      rw [if_pos h1]
    rw [e]
    exact ⟨rfl, rfl, rfl, (if_pos h1).symm,
      (if_neg (fun h : ¬ inPDirPool s a ∧ inIDPTbl s a => h.1 h1)).symm,
      (if_neg (fun h : ¬ inPDirPool s a ∧ ¬ inIDPTbl s a => h.1 h1)).symm⟩
  · by_cases h2 : inIDPTbl s a
    · have e : store_word a v s =
          { s with IDPTbl := Function.update s.IDPTbl ((a - s.idptbl_page * 4096) / 4) v } := by
        unfold store_word
        rw [if_neg h1, if_pos h2]
      rw [e]
      exact ⟨rfl, rfl, rfl, (if_neg h1).symm,
        (if_pos (⟨h1, h2⟩ : ¬ inPDirPool s a ∧ inIDPTbl s a)).symm,
        (if_neg (fun h : ¬ inPDirPool s a ∧ ¬ inIDPTbl s a => h.2 h2)).symm⟩
    · have e : store_word a v s = { s with mem := Function.update s.mem a v } := by
        unfold store_word
        rw [if_neg h1, if_neg h2]
      rw [e]
      exact ⟨rfl, rfl, rfl, (if_neg h1).symm,
        (if_neg (fun h : ¬ inPDirPool s a ∧ inIDPTbl s a => h2 h.2)).symm,
        (if_pos (⟨h1, h2⟩ : ¬ inPDirPool s a ∧ ¬ inIDPTbl s a)).symm⟩

theorem inPDirPool_store_word (a v : Nat) (s : PTState) (b : Nat) :
    inPDirPool (store_word a v s) b ↔ inPDirPool s b := by
  unfold inPDirPool
  rw [(store_word_fields a v s).1, (store_word_fields a v s).2.2.1]

theorem inIDPTbl_store_word (a v : Nat) (s : PTState) (b : Nat) :
    inIDPTbl (store_word a v s) b ↔ inIDPTbl s b := by
  unfold inIDPTbl
  rw [(store_word_fields a v s).2.1]

/-- A read at the address just written returns the value written. -/
theorem load_store_same (a v : Nat) (s : PTState) :
    load_word (store_word a v s) a = v := by
  obtain ⟨h1, h2, h3, h4, h5, h6⟩ := store_word_fields a v s
  unfold load_word
  by_cases c1 : inPDirPool s a
  · rw [if_pos ((inPDirPool_store_word a v s a).2 c1), h4, if_pos c1, h1, Function.update_same]
  · rw [if_neg (fun h => c1 ((inPDirPool_store_word a v s a).1 h))]
    by_cases c2 : inIDPTbl s a
    · rw [if_pos ((inIDPTbl_store_word a v s a).2 c2), h5, if_pos ⟨c1, c2⟩, h2,
        Function.update_same]
    · rw [if_neg (fun h => c2 ((inIDPTbl_store_word a v s a).1 h)), h6, if_pos ⟨c1, c2⟩,
        Function.update_same]

theorem PTState_eq (s t : PTState) (h1 : s.PDirPool = t.PDirPool) (h2 : s.IDPTbl = t.IDPTbl)
    (h3 : s.mem = t.mem) (h4 : s.pdir_page = t.pdir_page) (h5 : s.idptbl_page = t.idptbl_page)
    (h6 : s.num_ids = t.num_ids) : s = t := by
  cases s
  cases t
  simp only [PTState.mk.injEq]
  exact ⟨h1, h2, h3, h4, h5, h6⟩

/-- Of two assignments through the same pointer the second one remains. -/
theorem store_store (a v w : Nat) (s : PTState) :
    store_word a w (store_word a v s) = store_word a w s := by
  obtain ⟨f1, f2, f3, f4, f5, f6⟩ := store_word_fields a v s
  obtain ⟨g1, g2, g3, g4, g5, g6⟩ := store_word_fields a w (store_word a v s)
  obtain ⟨k1, k2, k3, k4, k5, k6⟩ := store_word_fields a w s
  apply PTState_eq
  · rw [g4, k4]
    simp only [inPDirPool_store_word, f1, f4]
    split_ifs
    · rw [Function.update_idem]
    · rfl
  · rw [g5, k5]
    simp only [inPDirPool_store_word, inIDPTbl_store_word, f2, f5]
    split_ifs
    · rw [Function.update_idem]
    · rfl
  · rw [g6, k6]
    simp only [inPDirPool_store_word, inIDPTbl_store_word, f6]
    split_ifs
    · rw [Function.update_idem]
    · rfl
  · rw [g1, k1, f1]
  · rw [g2, k2, f2]
  · rw [g3, k3, f3]

/-- The three assignments of `set_ptbl_entry` amount to one assignment of the
new entry through the pointer `pte`. -/
theorem set_ptbl_entry_eq (p d t page perm : Nat) (s : PTState) :
    set_ptbl_entry p d t page perm s =
      store_word (pte_addr s p d t) (((page <<< 12) % U32) ||| (perm &&& 0xfff)) s := by
  unfold set_ptbl_entry
  simp only [store_store, load_store_same]

theorem and_high_mask_aligned (e : Nat) : (e &&& 0xfffff000) % 4 = 0 := by
  have h : (e &&& 0xfffff000) &&& (2 ^ 2 - 1) = (e &&& 0xfffff000) % 2 ^ 2 :=
    Nat.and_pow_two_sub_one_eq_mod _ 2
  have h2 : (e &&& 0xfffff000) &&& (2 ^ 2 - 1) = 0 := by
    rw [Nat.and_assoc]
    have : (0xfffff000 : Nat) &&& (2 ^ 2 - 1) = 0 := by decide
    rw [this, Nat.and_zero]
  rw [h2] at h
  omega

/-- The pointer `pte` is 4-aligned. -/
theorem pte_addr_aligned (s : PTState) (p d t : Nat) : pte_addr s p d t % 4 = 0 := by
  unfold pte_addr
  simp only []
  have h1 := and_high_mask_aligned (s.PDirPool (p * 1024 + d))
  rw [Nat.shiftLeft_eq]
  simp only [U32_eq]
  omega

/-- The address used for entry `t` of the table that directory slot `(p, d)`
points at is the table base (the directory entry without its low 12 bits) plus
`4 * t`, for `t` below 1024. -/
theorem pte_addr_eq (s : PTState) (p d t : Nat) (ht : t < 1024) :
    pte_addr s p d t = (s.PDirPool (p * 1024 + d) &&& 0xfffff000) + 4 * t := by
  unfold pte_addr
  simp only []
  have h1 : s.PDirPool (p * 1024 + d) &&& 0xfffff000 ≤ 0xfffff000 := Nat.and_le_right
  rw [Nat.shiftLeft_eq]
  simp only [U32_eq] at *
  omega

/-- An assignment through a 4-aligned pointer changes no cell of `PDirPool`
that lies at another address. -/
theorem store_word_PDirPool_other (a v : Nat) (s : PTState) (c : Nat) (ha : a % 4 = 0)
    (hc : s.pdir_page * 4096 + 4 * c ≠ a) : (store_word a v s).PDirPool c = s.PDirPool c := by
  rw [(store_word_fields a v s).2.2.2.1]
  split_ifs with h
  · have hne : c ≠ (a - s.pdir_page * 4096) / 4 := by
      unfold inPDirPool at h
      omega
    rw [Function.update_noteq hne]
  · rfl

/-- An assignment through a 4-aligned pointer changes no cell of `IDPTbl` that
lies at another address. -/
theorem store_word_IDPTbl_other (a v : Nat) (s : PTState) (c : Nat) (ha : a % 4 = 0)
    (hc : s.idptbl_page * 4096 + 4 * c ≠ a) : (store_word a v s).IDPTbl c = s.IDPTbl c := by
  rw [(store_word_fields a v s).2.2.2.2.1]
  split_ifs with h
  · have hne : c ≠ (a - s.idptbl_page * 4096) / 4 := by
      have h2 := h.2
      unfold inIDPTbl at h2
      omega
    rw [Function.update_noteq hne]
  · rfl

theorem store_word_mem_other (a v : Nat) (s : PTState) (b : Nat) (hb : b ≠ a) :
    (store_word a v s).mem b = s.mem b := by
  rw [(store_word_fields a v s).2.2.2.2.2]
  split_ifs
  · rw [Function.update_noteq hb]
  · rfl

/-- When the pointer `pte` is not the address of the directory slot `(p, d)`
itself, `set_ptbl_entry` followed by `get_ptbl_entry` returns the new entry. -/
theorem get_after_set_ptbl_entry (s : PTState) (p d t page perm : Nat)
    (hno : pte_addr s p d t ≠ pdir_slot_addr s p d) :
    get_ptbl_entry (set_ptbl_entry p d t page perm s) p d t
      = ((page <<< 12) % U32) ||| (perm &&& 0xfff) := by
  have hcell : (set_ptbl_entry p d t page perm s).PDirPool (p * 1024 + d)
      = s.PDirPool (p * 1024 + d) := by
    rw [set_ptbl_entry_eq]
    exact store_word_PDirPool_other _ _ s _ (pte_addr_aligned s p d t)
      (fun h => hno h.symm)
  have haddr : pte_addr (set_ptbl_entry p d t page perm s) p d t = pte_addr s p d t := by
    unfold pte_addr
    rw [hcell]
  unfold get_ptbl_entry
  rw [haddr, set_ptbl_entry_eq, load_store_same]

/-- When the pointer `pte` is the address of the directory slot `(p, d)` itself,
`set_ptbl_entry` overwrites that directory slot with the new entry. -/
theorem set_ptbl_entry_hits_slot (s : PTState) (p d t page perm : Nat)
    (hp : p < s.num_ids) (hd : d < 1024)
    (hhit : pte_addr s p d t = pdir_slot_addr s p d) :
    get_pdir_entry (set_ptbl_entry p d t page perm s) p d
      = ((page <<< 12) % U32) ||| (perm &&& 0xfff) := by
  unfold get_pdir_entry
  rw [set_ptbl_entry_eq, (store_word_fields _ _ s).2.2.2.1, hhit]
  have hin : inPDirPool s (pdir_slot_addr s p d) := by
    unfold inPDirPool pdir_slot_addr
    constructor
    · omega
    · have : (s.pdir_page + s.num_ids) * 4096 = s.pdir_page * 4096 + s.num_ids * 4096 := by ring
      omega
  have hcell : (pdir_slot_addr s p d - s.pdir_page * 4096) / 4 = p * 1024 + d := by
    unfold pdir_slot_addr
    omega
  rw [if_pos hin, hcell, Function.update_same]

/-- C16 (as stated, refuted): directory slot (0, 0) of process 0 holds the
page-aligned base 0x800000 of the page directory of process 0 itself plus the
flags 7, so the pointer computed for table index 0 is the address of that
directory slot.  `set_ptbl_entry(0, 0, 0, 1, 7)` overwrites the directory slot
with 4103, and `get_ptbl_entry(0, 0, 0)` then reads the word at address 0x1000,
which is 0 and not `((1 << 12) mod 2^32) | (7 & 0xFFF)` = 4103. -/
theorem set_get_ptbl_entry_self_map :
    get_pdir_entry ptSelf 0 0 = 0x800007 ∧
    0x800007 &&& 0xfffff000 = 0x800000 ∧
    pdir_slot_addr ptSelf 0 0 = 0x800000 ∧
    pte_addr ptSelf 0 0 0 = pdir_slot_addr ptSelf 0 0 ∧
    get_pdir_entry (set_ptbl_entry 0 0 0 1 7 ptSelf) 0 0 = 4103 ∧
    pte_addr (set_ptbl_entry 0 0 0 1 7 ptSelf) 0 0 0 = 0x1000 ∧
    get_ptbl_entry (set_ptbl_entry 0 0 0 1 7 ptSelf) 0 0 0 = 0 ∧
    ((1 <<< 12) % U32) ||| (7 &&& 0xfff) = 4103 ∧
    get_ptbl_entry (set_ptbl_entry 0 0 0 1 7 ptSelf) 0 0 0
      ≠ ((1 <<< 12) % U32) ||| (7 &&& 0xfff) := by
  decide

/-- C16 (amended): for all 32-bit arguments and whatever word the slot held
before, when the pointer computed from directory slot `(p, d)` and table index
`t` is not the address of that directory slot itself,
`set_ptbl_entry(p, d, t, page, perm)` followed by `get_ptbl_entry(p, d, t)`
returns exactly `((page << 12) mod 2^32) | (perm & 0xFFF)`, with no bit of the
previous content; the directory slot `(p, d)` keeps its word, and no cell of
`PDirPool` or `IDPTbl` and no memory word at another address changes. -/
theorem set_get_ptbl_entry (s : PTState) (p d t page perm : Nat)
    (hno : pte_addr s p d t ≠ pdir_slot_addr s p d) :
    get_ptbl_entry (set_ptbl_entry p d t page perm s) p d t
      = ((page <<< 12) % U32) ||| (perm &&& 0xfff) ∧
    get_pdir_entry (set_ptbl_entry p d t page perm s) p d = get_pdir_entry s p d ∧
    (∀ c, s.pdir_page * 4096 + 4 * c ≠ pte_addr s p d t →
      (set_ptbl_entry p d t page perm s).PDirPool c = s.PDirPool c) ∧
    (∀ c, s.idptbl_page * 4096 + 4 * c ≠ pte_addr s p d t →
      (set_ptbl_entry p d t page perm s).IDPTbl c = s.IDPTbl c) ∧
    (∀ a, a ≠ pte_addr s p d t → (set_ptbl_entry p d t page perm s).mem a = s.mem a) := by
  have hal := pte_addr_aligned s p d t
  refine ⟨get_after_set_ptbl_entry s p d t page perm hno, ?_, fun c hc => ?_, fun c hc => ?_,
    fun a ha => ?_⟩
  · unfold get_pdir_entry
    rw [set_ptbl_entry_eq]
    exact store_word_PDirPool_other _ _ s _ hal (fun h => hno h.symm)
  · rw [set_ptbl_entry_eq]
    exact store_word_PDirPool_other _ _ s c hal hc
  · rw [set_ptbl_entry_eq]
    exact store_word_IDPTbl_other _ _ s c hal hc
  · rw [set_ptbl_entry_eq]
    exact store_word_mem_other _ _ s a ha

theorem set_get_ptbl_entry_witness :
    pte_addr (set_pdir_entry 0 0 0x400 ptBoot) 0 0 5
      ≠ pdir_slot_addr (set_pdir_entry 0 0 0x400 ptBoot) 0 0 ∧
    inIDPTbl (set_pdir_entry 0 0 0x400 ptBoot) (pte_addr (set_pdir_entry 0 0 0x400 ptBoot) 0 0 5) ∧
    get_ptbl_entry (set_ptbl_entry 0 0 5 1 7 (set_pdir_entry 0 0 0x400 ptBoot)) 0 0 5
      = ((1 <<< 12) % U32) ||| (7 &&& 0xfff) :=
  ⟨by decide, by decide,
   (set_get_ptbl_entry (set_pdir_entry 0 0 0x400 ptBoot) 0 0 5 1 7 (by decide)).1⟩

/-- C18 (evaluation at the failing input): directory slot (0, 0) points at the
table at 0x100000 and entry 0 of that table maps page 1 with flags 7 (word
4103).  After `rmv_ptbl_entry(0, 0, 0)` the entry still reads 4103, whereas
`set_ptbl_entry(0, 0, 0, 0, 0)` makes it read 0; `rmv_ptbl_entry` returns every
state as it was given. -/
theorem rmv_ptbl_entry_keeps_entry :
    get_ptbl_entry (set_ptbl_entry 0 0 0 1 7 ptDemo) 0 0 0 = 4103 ∧
    get_ptbl_entry (rmv_ptbl_entry 0 0 0 (set_ptbl_entry 0 0 0 1 7 ptDemo)) 0 0 0 = 4103 ∧
    get_ptbl_entry (set_ptbl_entry 0 0 0 0 0 (set_ptbl_entry 0 0 0 1 7 ptDemo)) 0 0 0 = 0 ∧
    ∀ (p d t : Nat) (s : PTState), rmv_ptbl_entry p d t s = s := by
  refine ⟨?_, ?_, ?_, fun _ _ _ _ => rfl⟩
  · rw [get_after_set_ptbl_entry _ _ _ _ _ _ (by decide)]; decide
  · show get_ptbl_entry (set_ptbl_entry 0 0 0 1 7 ptDemo) 0 0 0 = 4103
    rw [get_after_set_ptbl_entry _ _ _ _ _ _ (by decide)]; decide
  · rw [get_after_set_ptbl_entry _ _ _ _ _ _ (by decide)]; decide

/-! ## Identity page table entries -/

theorem or_and_high_mask (a q : Nat) (ha : a < 2 ^ 20) (hq : q < 2 ^ 12) :
    (2 ^ 12 * a ||| q) &&& 0xFFFFF000 = 2 ^ 12 * a := by
  apply Nat.eq_of_testBit_eq
  intro j
  have hm : (0xFFFFF000 : Nat) = 2 ^ 12 * (2 ^ 20 - 1) := by decide
  rw [hm]
  simp only [Nat.testBit_and, Nat.testBit_or, Nat.testBit_mul_pow_two,
    Nat.testBit_two_pow_sub_one]
  by_cases hj : 12 ≤ j
  · have hqj : q.testBit j = false :=
      Nat.testBit_lt_two_pow (lt_of_lt_of_le hq (Nat.pow_le_pow_right (by decide) hj))
    by_cases hj2 : j - 12 < 20
    · simp [hj, hqj, hj2]
    · have haj : a.testBit (j - 12) = false :=
        Nat.testBit_lt_two_pow
          (lt_of_lt_of_le ha (Nat.pow_le_pow_right (by decide) (by omega)))
      simp [hj, hqj, haj]
  · simp [hj]

theorem or_and_low_mask (a q : Nat) (hq : q < 2 ^ 12) :
    (2 ^ 12 * a ||| q) &&& 0xFFF = q := by
  have hm : (0xFFF : Nat) = 2 ^ 12 - 1 := by decide
  rw [hm, Nat.and_pow_two_sub_one_eq_mod, ← Nat.mul_add_lt_is_or hq]
  omega

theorem set_ptbl_entry_identity_word (s : PTState) (d t perm : Nat) :
    (set_ptbl_entry_identity d t perm s).IDPTbl (d * 1024 + t) =
      ((((((d <<< 10) % U32 + t) % U32) <<< 12) % U32) ||| perm) % U32 := by
  unfold set_ptbl_entry_identity
  simp only [Function.update_same]

/-- C17 (as stated, refuted): for `(d, t, perm) = (2, 5, 0x7)` the stored word
decodes to base `(2 * 1024 + 5) * 4096 = 8409088`, not 8413184; and for
`(d, t, perm) = (0, 0, 0x1000)` the permission word reaches bit 12, so the
stored word decodes to base 4096 instead of `(0 * 1024 + 0) * 4096 = 0`. -/
theorem set_ptbl_entry_identity_example_base :
    (set_ptbl_entry_identity 2 5 0x7 ptBoot).IDPTbl (2 * 1024 + 5) &&& 0xFFFFF000 = 8409088 ∧
    (2 * 1024 + 5) * 4096 = 8409088 ∧
    (set_ptbl_entry_identity 2 5 0x7 ptBoot).IDPTbl (2 * 1024 + 5) &&& 0xFFFFF000 ≠ 8413184 ∧
    (set_ptbl_entry_identity 0 0 0x1000 ptBoot).IDPTbl (0 * 1024 + 0) &&& 0xFFFFF000 = 4096 ∧
    (set_ptbl_entry_identity 0 0 0x1000 ptBoot).IDPTbl (0 * 1024 + 0) &&& 0xFFFFF000
      ≠ (0 * 1024 + 0) * 4096 := by
  rw [set_ptbl_entry_identity_word, set_ptbl_entry_identity_word]
  decide

/-- C17 (amended): for every `d` and `t` below 1024 and every `perm` below
4096 (confined to the low 12 bits), after `set_ptbl_entry_identity(d, t, perm)`
the stored word `IDPTbl[d][t]` decodes (`word & 0xFFFFF000`) to the base
`(d * 1024 + t) * 4096` and its low 12 bits are `perm`; for
`(d, t, perm) = (2, 5, 0x7)` the base is 8409088 and the flags are 0x7. -/
theorem set_ptbl_entry_identity_masked (s : PTState) (d t perm : Nat)
    (hd : d < 1024) (ht : t < 1024) (hp : perm < 4096) :
    (set_ptbl_entry_identity d t perm s).IDPTbl (d * 1024 + t) &&& 0xFFFFF000
      = (d * 1024 + t) * 4096 ∧
    (set_ptbl_entry_identity d t perm s).IDPTbl (d * 1024 + t) &&& 0xFFF = perm ∧
    (set_ptbl_entry_identity 2 5 0x7 s).IDPTbl (2 * 1024 + 5) &&& 0xFFFFF000 = 8409088 ∧
    (set_ptbl_entry_identity 2 5 0x7 s).IDPTbl (2 * 1024 + 5) &&& 0xFFF = 0x7 := by
  rw [set_ptbl_entry_identity_word, set_ptbl_entry_identity_word]
  have hbase : ((((d <<< 10) % U32 + t) % U32) <<< 12) % U32 = 2 ^ 12 * (d * 1024 + t) := by
    rw [Nat.shiftLeft_eq, Nat.shiftLeft_eq]
    simp only [U32_eq]
    omega
  have ha : d * 1024 + t < 2 ^ 20 := by omega
  have hq : perm < 2 ^ 12 := by omega
  have hlt : (2 ^ 12 * (d * 1024 + t) ||| perm) < U32 := by
    rw [U32_eq]
    have h1 : 2 ^ 12 * (d * 1024 + t) < 2 ^ 32 := by omega
    have h2 : perm < 2 ^ 32 := by omega
    exact Nat.or_lt_two_pow h1 h2
  rw [hbase, Nat.mod_eq_of_lt hlt, or_and_high_mask _ _ ha hq, or_and_low_mask _ _ hq]
  exact ⟨by omega, rfl, by decide, by decide⟩

theorem set_ptbl_entry_identity_masked_witness :
    (set_ptbl_entry_identity 1 3 0x3 ptBoot).IDPTbl (1 * 1024 + 3) &&& 0xFFFFF000
      = (1 * 1024 + 3) * 4096 ∧
    (set_ptbl_entry_identity 1 3 0x3 ptBoot).IDPTbl (1 * 1024 + 3) &&& 0xFFF = 0x3 :=
  ⟨(set_ptbl_entry_identity_masked ptBoot 1 3 0x3 (by decide) (by decide) (by decide)).1,
   (set_ptbl_entry_identity_masked ptBoot 1 3 0x3 (by decide) (by decide) (by decide)).2.1⟩

/-! ## Accounting: usage against allocated pages -/

theorem usageSum_container_init (mm : List MemRow) (K : Nat) :
    usageSum K (container_init mm boot) = 0 := by
  unfold usageSum
  apply Finset.sum_eq_zero
  intro i _
  rw [container_init_boot_CONTAINER]
  split_ifs <;> rfl

theorem allocatedCount_container_init (mm : List MemRow) (B : Nat) :
    allocatedCount B (container_init mm boot) = 0 := by
  unfold allocatedCount
  rw [Finset.card_eq_zero, Finset.filter_eq_empty_iff]
  intro j _
  unfold at_is_allocated
  rw [(container_init_boot_fields mm).2.1, pmem_init_allocated_zero]
  decide

/-! ## Accounting: each operation keeps the balance -/

theorem usageSum_update (K : Nat) (s : KState) (t : KState) (id : Nat) (d : Int)
    (hid : id < K)
    (hsame : (t.CONTAINER id).usage = (s.CONTAINER id).usage + d)
    (hother : ∀ i, i ≠ id → t.CONTAINER i = s.CONTAINER i) :
    usageSum K t = usageSum K s + d := by
  unfold usageSum
  have hpt : ∀ i, i ∈ Finset.range K →
      (t.CONTAINER i).usage = (s.CONTAINER i).usage + (if i = id then d else 0) := by
    intro i _
    by_cases hi : i = id
    · subst hi
      rw [if_pos rfl, hsame]
    · rw [if_neg hi, hother i hi, add_zero]
  rw [Finset.sum_congr rfl hpt, Finset.sum_add_distrib, Finset.sum_ite_eq']
  rw [if_pos (Finset.mem_range.mpr hid)]

theorem allocatedCount_set (B : Nat) (s t : KState) (r : Nat) (hr : r < B)
    (hold : at_is_allocated s r = 0) (hnew : at_is_allocated t r ≠ 0)
    (hother : ∀ j, j ≠ r → t.AT j = s.AT j) :
    allocatedCount B t = allocatedCount B s + 1 := by
  unfold allocatedCount
  have hnot : r ∉ (Finset.range B).filter (fun j => at_is_allocated s j ≠ 0) := by
    intro hm
    exact (Finset.mem_filter.mp hm).2 hold
  have heq : (Finset.range B).filter (fun j => at_is_allocated t j ≠ 0)
      = insert r ((Finset.range B).filter (fun j => at_is_allocated s j ≠ 0)) := by
    ext j
    simp only [Finset.mem_filter, Finset.mem_insert, Finset.mem_range]
    by_cases hj : j = r
    · subst hj
      exact ⟨fun _ => Or.inl rfl, fun _ => ⟨hr, hnew⟩⟩
    · have e : at_is_allocated t j = at_is_allocated s j := by
        unfold at_is_allocated
        rw [hother j hj]
      rw [e]
      exact ⟨fun h => Or.inr h, fun h => h.resolve_left hj⟩
  rw [heq, Finset.card_insert_of_not_mem hnot]

theorem allocatedCount_clear (B : Nat) (s t : KState) (r : Nat) (hr : r < B)
    (hold : at_is_allocated s r ≠ 0) (hnew : at_is_allocated t r = 0)
    (hother : ∀ j, j ≠ r → t.AT j = s.AT j) :
    allocatedCount B t + 1 = allocatedCount B s :=
  (allocatedCount_set B t s r hr hnew hold (fun j hj => (hother j hj).symm)).symm

/-- For a container id below `K` whose usage is an `int` above the least one,
and a page index below `B`, `container_free` changes the sum of usage and the
count of allocated pages by the same amount. -/
theorem container_free_balance (K B id page_index : Nat) (s : KState)
    (hid : id < K) (hp : page_index < B)
    (hu : -2147483648 < (s.CONTAINER id).usage ∧ (s.CONTAINER id).usage ≤ 2147483647) :
    usageSum K (container_free id page_index s)
        - (allocatedCount B (container_free id page_index s) : Int)
      = usageSum K s - (allocatedCount B s : Int) := by
  by_cases h : at_is_allocated s page_index = 0
  · rw [container_free_noop id page_index s h]
  · have e := container_free_eq id page_index s h
    have hu := usageSum_update K s (container_free id page_index s) id (-1) hid
      (by rw [e]; show (Function.update (pfree page_index s).CONTAINER id _ id).usage = _
          rw [Function.update_same]
          show wrapInt32 ((s.CONTAINER id).usage - 1) = _
          rw [wrapInt32_of_range _ (by omega) (by omega)]; rfl)
      (by intro i hi; rw [e]
          show Function.update (pfree page_index s).CONTAINER id _ i = _
          rw [Function.update_noteq hi]; rfl)
    have hc := allocatedCount_clear B s (container_free id page_index s) page_index hp h
      (by rw [e]
          show (if 0 < ((pfree page_index s).AT page_index).allocated then 1 else 0) = 0
          rw [pfree_AT, if_pos rfl]; rfl)
      (by intro j hj; rw [e]
          show (pfree page_index s).AT j = _
          rw [pfree_AT, if_neg hj])
    rw [hu, ← hc]
    push_cast
    ring

/-- For a container id below `K`, a returned page index below `B`, and a
state in which page 0 is not a free Normal page, `container_alloc` changes the
sum of usage and the count of allocated pages by the same amount. -/
theorem container_alloc_balance (K B fuel id : Nat) (s : KState) (r : Nat) (s' : KState)
    (h : container_alloc fuel id s = some (r, s'))
    (hid : id < K) (hr : r < B) (h0 : ¬ isFree s 0) :
    usageSum K s' - (allocatedCount B s' : Int) = usageSum K s - (allocatedCount B s : Int) := by
  unfold container_alloc pmem_alloc at h
  split_ifs at h with hq
  · cases hp : palloc fuel s with
    | none => rw [hp] at h; simp at h
    | some x =>
      obtain ⟨r1, s1⟩ := x
      rw [hp] at h
      simp only at h
      rcases palloc_some fuel s r1 s1 hp with h1 | h1
      · obtain ⟨rfl, rfl⟩ := h1
        simp only [ne_eq, not_true_eq_false, if_false, Option.some.injEq, Prod.mk.injEq] at h
        rw [← h.2]
      · obtain ⟨hfree, rfl⟩ := h1
        have hr1 : r1 ≠ 0 := by
          intro hz
          rw [hz] at hfree
          exact h0 hfree
        simp only [ne_eq, hr1, not_false_eq_true, if_true, Option.some.injEq,
          Prod.mk.injEq] at h
        obtain ⟨rfl, rfl⟩ := h
        have hu := usageSum_update K s
          (KState.mk (allocState s r1).NUM_PAGES (allocState s r1).AT (allocState s r1).pointer
            (Function.update (allocState s r1).CONTAINER id
              ⟨((allocState s r1).CONTAINER id).quota, ((allocState s r1).CONTAINER id).usage + 1,
                ((allocState s r1).CONTAINER id).parent,
                ((allocState s r1).CONTAINER id).nchildren,
                ((allocState s r1).CONTAINER id).used⟩)) id 1 hid
          (by show (Function.update (allocState s r1).CONTAINER id _ id).usage = _
              rw [Function.update_same]; rfl)
          (by intro i hi
              show Function.update (allocState s r1).CONTAINER id _ i = _
              rw [Function.update_noteq hi]; rfl)
        have hc := allocatedCount_set B s
          (KState.mk (allocState s r1).NUM_PAGES (allocState s r1).AT (allocState s r1).pointer
            (Function.update (allocState s r1).CONTAINER id
              ⟨((allocState s r1).CONTAINER id).quota, ((allocState s r1).CONTAINER id).usage + 1,
                ((allocState s r1).CONTAINER id).parent,
                ((allocState s r1).CONTAINER id).nchildren,
                ((allocState s r1).CONTAINER id).used⟩)) r1 hr hfree.2
          (by show (if 0 < ((allocState s r1).AT r1).allocated then 1 else 0) ≠ 0
              rw [allocState_AT, if_pos rfl]
              show (if 0 < (1 : Nat) then (1 : Nat) else 0) ≠ 0
              decide)
          (by intro j hj
              show (allocState s r1).AT j = _
              rw [allocState_AT, if_neg hj])
        rw [hu, hc]
        push_cast
        ring
  · simp only [Option.some.injEq, Prod.mk.injEq] at h
    rw [← h.2]

/-! ## First fit from every reachable state -/

theorem container_init_eq (mm : List MemRow) (s : KState) :
    container_init mm s =
      KState.mk (pmem_init mm s).NUM_PAGES (pmem_init mm s).AT (pmem_init mm s).pointer
        (Function.update (pmem_init mm s).CONTAINER 0
          ⟨toInt32 (container_init_quota mm s), 0, 0, 0, 1⟩) := rfl

theorem container_init_fields (mm : List MemRow) (s : KState) :
    (container_init mm s).NUM_PAGES = pmem_init_nps mm ∧
    (container_init mm s).AT = (pmem_init mm s).AT ∧
    (container_init mm s).pointer = s.pointer ∧
    (container_init mm s).CONTAINER =
      Function.update s.CONTAINER 0 ⟨toInt32 (container_init_quota mm s), 0, 0, 0, 1⟩ := by
  rw [container_init_eq]
  refine ⟨(pmem_init_rest mm s).1, rfl, (pmem_init_rest mm s).2.1, ?_⟩
  show Function.update (pmem_init mm s).CONTAINER 0 _ = _
  rw [(pmem_init_rest mm s).2.2]

/-- The counting loop of `container_init` counts, modulo 2^32, the pages below
the bound that are Normal and unallocated. -/
theorem count_loop_eq (t : KState) (n : Nat) :
    iter (fun i q => if at_is_norm t i ≠ 0 ∧ at_is_allocated t i = 0 then (q + 1) % U32 else q)
        0 n 0
      = ((Finset.range n).filter (fun i => isFree t i)).card % U32 := by
  induction n with
  | zero => rfl
  | succ n ih =>
    rw [iter_succ_last, ih, Nat.zero_add, Finset.range_succ, Finset.filter_insert]
    have hnorm : (at_is_norm t n ≠ 0 ∧ at_is_allocated t n = 0) ↔ isFree t n := by
      unfold isFree at_is_norm
      split_ifs <;> simp
    by_cases hf : isFree t n
    · rw [if_pos (hnorm.2 hf), if_pos hf,
        Finset.card_insert_of_not_mem (by simp), Nat.add_mod, Nat.mod_mod, ← Nat.add_mod]
    · rw [if_neg (fun h => hf (hnorm.1 h)), if_neg hf]

theorem container_init_quota_eq (mm : List MemRow) (s : KState) :
    container_init_quota mm s
      = ((Finset.range s.NUM_PAGES).filter (fun i => isFree (pmem_init mm s) i)).card % U32 := by
  unfold container_init_quota forLoop get_nps
  rw [Nat.sub_zero]
  exact count_loop_eq (pmem_init mm s) s.NUM_PAGES

/-- After `pmem_init` on a state without allocated or Normal pages outside the
user range no page is allocated, and no page outside the user range is Normal. -/
theorem pmem_init_preInit (mm : List MemRow) (s : KState) (h : preInit s) :
    (∀ j, ((pmem_init mm s).AT j).allocated = 0) ∧
    (∀ j, j < VM_USERLO_PI ∨ VM_USERHI_PI ≤ j → ((pmem_init mm s).AT j).perm ≤ 1) := by
  refine ⟨fun j => ?_, fun j hj => ?_⟩
  · by_cases hu : VM_USERLO_PI ≤ j ∧ j < VM_USERHI_PI
    · rcases pmem_init_AT_user mm s j hu with h1 | h1 <;> rw [h1.1]
    · by_cases hk : j < VM_USERLO_PI ∨ (VM_USERHI_PI ≤ j ∧ j < pmem_init_nps mm)
      · rw [pmem_init_AT_kernel mm s j hk]
      · rw [pmem_init_AT_above mm s j (by omega) (by omega)]
        exact (h.1 j (by omega)).2
  · by_cases hk : j < VM_USERLO_PI ∨ (VM_USERHI_PI ≤ j ∧ j < pmem_init_nps mm)
    · rw [pmem_init_AT_kernel mm s j hk]
    · rw [pmem_init_AT_above mm s j (by omega) (by omega)]
      exact (h.1 j hj).1

/-- The free pages of a table without Normal pages outside the user range
number at most the size of the user range. -/
theorem free_card_le (t : KState) (n : Nat)
    (h : ∀ j, j < VM_USERLO_PI ∨ VM_USERHI_PI ≤ j → (t.AT j).perm ≤ 1) :
    ((Finset.range n).filter (fun i => isFree t i)).card ≤ 720896 := by
  have hsub : (Finset.range n).filter (fun i => isFree t i)
      ⊆ Finset.Ico VM_USERLO_PI VM_USERHI_PI := by
    intro j hj
    have hf := (Finset.mem_filter.mp hj).2
    have hp := isFree_perm hf
    rw [Finset.mem_Ico]
    by_contra hc
    have := h j (by omega)
    omega
  have hc := Finset.card_le_card hsub
  rw [Nat.card_Ico] at hc
  have h1 := VM_USERHI_PI_eq
  have h2 := VM_USERLO_PI_eq
  omega

theorem container_init_quota_le (mm : List MemRow) (s : KState) (h : preInit s) :
    container_init_quota mm s ≤ 720896 := by
  rw [container_init_quota_eq]
  exact le_trans (Nat.mod_le _ _) (free_card_le _ _ (pmem_init_preInit mm s h).2)

theorem toInt32_small (n : Nat) (h : n ≤ 720896) : toInt32 n = (n : Int) := by
  unfold toInt32
  simp only [U32_eq]
  have e : n % 4294967296 = n := Nat.mod_eq_of_lt (by omega)
  rw [e, if_pos (by omega)]

/-- When usage is 0 from `K0` on, the sum of usage below any larger bound is
the sum below `K0`. -/
theorem usageSum_extend (s : KState) (K0 : Nat)
    (h0 : ∀ id, K0 ≤ id → (s.CONTAINER id).usage = 0) :
    ∀ K, K0 ≤ K → usageSum K s = usageSum K0 s := by
  intro K hK
  induction K, hK using Nat.le_induction with
  | base => rfl
  | succ n hn ih =>
    unfold usageSum at ih ⊢
    rw [Finset.sum_range_succ, ih, h0 n hn, add_zero]

theorem acctInv_init (mm : List MemRow) (s : KState) (h : preInit s) :
    acctInv (container_init mm s) := by
  obtain ⟨hNP, hAT, hptr, hC⟩ := container_init_fields mm s
  have hpre := pmem_init_preInit mm s h
  have hq := container_init_quota_le mm s h
  have hroot : (container_init mm s).CONTAINER 0
      = ⟨toInt32 (container_init_quota mm s), 0, 0, 0, 1⟩ := by
    rw [hC, Function.update_same]
  have hrest : ∀ id, id ≠ 0 → (container_init mm s).CONTAINER id = s.CONTAINER id := by
    intro id hid
    rw [hC, Function.update_noteq hid]
  have husage : ∀ id, ((container_init mm s).CONTAINER id).usage = 0 := by
    intro id
    by_cases hid : id = 0
    · subst hid
      rw [hroot]
    · rw [hrest id hid]
      exact (h.2 id hid).1
  refine ⟨fun j hj => ?_, ?_, fun id hid => ?_, fun id => ?_, 0, fun id _ => husage id, ?_⟩
  · rw [hAT]
    exact ⟨hpre.2 j hj, hpre.1 j⟩
  · rw [hroot]
    show 0 ≤ toInt32 _ ∧ toInt32 _ ≤ 720896
    rw [toInt32_small _ hq]
    omega
  · rw [hrest id hid]
    exact (h.2 id hid).2
  · rw [husage id]
    by_cases hid : id = 0
    · subst hid
      rw [hroot]
      show (0 : Int) ≤ toInt32 _
      rw [toInt32_small _ hq]
      omega
    · rw [hrest id hid, (h.2 id hid).2]
  · have e : allocatedCount VM_USERHI_PI (container_init mm s) = 0 := by
      unfold allocatedCount
      rw [Finset.card_eq_zero, Finset.filter_eq_empty_iff]
      intro j _
      unfold at_is_allocated
      rw [hAT, hpre.1 j]
      decide
    rw [e]
    rfl

/-- The two ways `container_alloc` returns from a state in which page 0 is not
free: with 0 and the state unchanged, or with a free page `r`, its flag set,
the cursor behind it, and the usage of the container one higher. -/
theorem container_alloc_cases (fuel id : Nat) (s : KState) (r : Nat) (s' : KState)
    (h : container_alloc fuel id s = some (r, s')) (h0 : ¬ isFree s 0) :
    (r = 0 ∧ s' = s) ∨
    (r ≠ 0 ∧ isFree s r ∧ (s.CONTAINER id).usage < (s.CONTAINER id).quota ∧
      s' = KState.mk s.NUM_PAGES (allocState s r).AT ((r + 1) % U32)
        (Function.update s.CONTAINER id
          ⟨(s.CONTAINER id).quota, (s.CONTAINER id).usage + 1, (s.CONTAINER id).parent,
            (s.CONTAINER id).nchildren, (s.CONTAINER id).used⟩)) := by
  unfold container_alloc pmem_alloc at h
  split_ifs at h with hq
  · cases hp : palloc fuel s with
    | none => rw [hp] at h; simp at h
    | some x =>
      obtain ⟨r1, s1⟩ := x
      rw [hp] at h
      simp only at h
      rcases palloc_some fuel s r1 s1 hp with h1 | h1
      · obtain ⟨rfl, rfl⟩ := h1
        simp only [ne_eq, not_true_eq_false, if_false, Option.some.injEq, Prod.mk.injEq] at h
        exact Or.inl ⟨h.1.symm, h.2.symm⟩
      · obtain ⟨hfree, rfl⟩ := h1
        have hr1 : r1 ≠ 0 := by
          intro hz
          rw [hz] at hfree
          exact h0 hfree
        simp only [ne_eq, hr1, not_false_eq_true, if_true, Option.some.injEq,
          Prod.mk.injEq] at h
        obtain ⟨rfl, rfl⟩ := h
        exact Or.inr ⟨hr1, hfree, hq, rfl⟩
  · simp only [Option.some.injEq, Prod.mk.injEq] at h
    exact Or.inl ⟨h.1.symm, h.2.symm⟩

/-! ## The invariant of the container layer -/

theorem acctInv_not_free_zero (s : KState) (h : acctInv s) : ¬ isFree s 0 := by
  intro hf
  have h1 := isFree_perm hf
  have h2 := (h.1 0 (Or.inl (by decide))).1
  omega

theorem acctInv_free_in_range (s : KState) (h : acctInv s) (r : Nat) (hf : isFree s r) :
    VM_USERLO_PI ≤ r ∧ r < VM_USERHI_PI := by
  have h1 := isFree_perm hf
  by_contra hc
  have h2 := (h.1 r (by omega)).1
  omega

theorem acctInv_allocated_in_range (s : KState) (h : acctInv s) (j : Nat)
    (hj : at_is_allocated s j ≠ 0) : VM_USERLO_PI ≤ j ∧ j < VM_USERHI_PI := by
  by_contra hc
  have h2 := (h.1 j (by omega)).2
  unfold at_is_allocated at hj
  rw [h2] at hj
  exact hj (by decide)

/-- Under the invariant no usage is below minus the root quota. -/
theorem acctInv_usage_lower (s : KState) (h : acctInv s) (id : Nat) :
    -(s.CONTAINER 0).quota ≤ (s.CONTAINER id).usage := by
  obtain ⟨_, hq0, hq, hu, K0, hz, hsum⟩ := h
  have hK := usageSum_extend s K0 hz (max K0 (id + 1)) (le_max_left _ _)
  rw [hsum] at hK
  unfold usageSum at hK
  have hmem : id ∈ Finset.range (max K0 (id + 1)) :=
    Finset.mem_range.mpr (lt_of_lt_of_le (Nat.lt_succ_self id) (le_max_right _ _))
  have hsplit := Finset.add_sum_erase (Finset.range (max K0 (id + 1)))
    (fun i => (s.CONTAINER i).usage) hmem
  have hle : ∑ i in (Finset.range (max K0 (id + 1))).erase id, (s.CONTAINER i).usage
      ≤ ∑ i in (Finset.range (max K0 (id + 1))).erase id,
          (if i = 0 then (s.CONTAINER 0).quota else 0) := by
    apply Finset.sum_le_sum
    intro i _
    by_cases hi : i = 0
    · subst hi
      rw [if_pos rfl]
      exact hu 0
    · rw [if_neg hi, ← hq i hi]
      exact hu i
  rw [Finset.sum_ite_eq'] at hle
  simp only at hsplit
  split_ifs at hle <;> omega

theorem acctInv_alloc (fuel id : Nat) (s : KState) (r : Nat) (s' : KState)
    (hinv : acctInv s) (h : container_alloc fuel id s = some (r, s')) : acctInv s' := by
  have h0 := acctInv_not_free_zero s hinv
  rcases container_alloc_cases fuel id s r s' h h0 with ⟨_, rfl⟩ | ⟨hr, hfree, hlt, he⟩
  · exact hinv
  · have hrange := acctInv_free_in_range s hinv r hfree
    have hbal := container_alloc_balance (max (hinv.2.2.2.2.choose) (id + 1)) VM_USERHI_PI
      fuel id s r s' h
      (lt_of_lt_of_le (Nat.lt_succ_self id) (le_max_right _ _)) hrange.2 h0
    obtain ⟨hout, hq0, hq, hu, hex⟩ := hinv
    have hz := hex.choose_spec.1
    have hsum := hex.choose_spec.2
    have hC : ∀ i, (s'.CONTAINER i).quota = (s.CONTAINER i).quota ∧
        (s'.CONTAINER i).usage = (s.CONTAINER i).usage + (if i = id then 1 else 0) := by
      intro i
      rw [he]
      show (Function.update s.CONTAINER id _ i).quota = _ ∧
        (Function.update s.CONTAINER id _ i).usage = _
      by_cases hi : i = id
      · subst hi
        rw [Function.update_same, if_pos rfl]
        exact ⟨rfl, rfl⟩
      · rw [Function.update_noteq hi, if_neg hi, add_zero]
        exact ⟨rfl, rfl⟩
    have hA : ∀ j, j ≠ r → s'.AT j = s.AT j := by
      intro j hj
      rw [he]
      show (allocState s r).AT j = _
      rw [allocState_AT, if_neg hj]
    refine ⟨fun j hj => ?_, ?_, fun i hi => ?_, fun i => ?_,
      max hex.choose (id + 1), fun i hi => ?_, ?_⟩
    · rw [hA j (by omega)]
      exact hout j hj
    · rw [(hC 0).1]
      exact hq0
    · rw [(hC i).1]
      exact hq i hi
    · rw [(hC i).1, (hC i).2]
      have := hu i
      split_ifs with hi
      · subst hi
        omega
      · omega
    · have hne : i ≠ id := by
        have := le_max_right hex.choose (id + 1)
        omega
      rw [(hC i).2, if_neg hne, add_zero]
      exact hz i (le_trans (le_max_left _ _) hi)
    · have hext := usageSum_extend s hex.choose hz (max hex.choose (id + 1)) (le_max_left _ _)
      rw [hext, hsum] at hbal
      omega

theorem acctInv_free (id page_index : Nat) (s : KState) (hinv : acctInv s) :
    acctInv (container_free id page_index s) := by
  by_cases hfl : at_is_allocated s page_index = 0
  · rw [container_free_noop id page_index s hfl]
    exact hinv
  · have hrange := acctInv_allocated_in_range s hinv page_index hfl
    have hlow := acctInv_usage_lower s hinv id
    obtain ⟨hout, hq0, hq, hu, hex⟩ := hinv
    have hz := hex.choose_spec.1
    have hsum := hex.choose_spec.2
    have hup := hu id
    have hqid : (s.CONTAINER id).quota ≤ 720896 := by
      by_cases hi : id = 0
      · subst hi
        exact hq0.2
      · rw [hq id hi]
        decide
    have hwrap : wrapInt32 ((s.CONTAINER id).usage - 1) = (s.CONTAINER id).usage - 1 :=
      wrapInt32_of_range _ (by omega) (by omega)
    have hbal := container_free_balance (max hex.choose (id + 1)) VM_USERHI_PI id page_index s
      (lt_of_lt_of_le (Nat.lt_succ_self id) (le_max_right _ _)) hrange.2
      ⟨by omega, by omega⟩
    have he := container_free_eq id page_index s hfl
    have hC : ∀ i, ((container_free id page_index s).CONTAINER i).quota = (s.CONTAINER i).quota ∧
        ((container_free id page_index s).CONTAINER i).usage
          = (s.CONTAINER i).usage - (if i = id then 1 else 0) := by
      intro i
      rw [he]
      show (Function.update (pfree page_index s).CONTAINER id _ i).quota = _ ∧
        (Function.update (pfree page_index s).CONTAINER id _ i).usage = _
      by_cases hi : i = id
      · subst hi
        rw [Function.update_same, if_pos rfl]
        exact ⟨rfl, hwrap⟩
      · rw [Function.update_noteq hi, if_neg hi, sub_zero]
        exact ⟨rfl, rfl⟩
    have hA : ∀ j, (container_free id page_index s).AT j
        = if j = page_index then ⟨(s.AT page_index).perm, 0⟩ else s.AT j := by
      intro j
      rw [he]
      show (pfree page_index s).AT j = _
      rw [pfree_AT]
    refine ⟨fun j hj => ?_, ?_, fun i hi => ?_, fun i => ?_,
      max hex.choose (id + 1), fun i hi => ?_, ?_⟩
    · rw [hA j, if_neg (by omega)]
      exact hout j hj
    · rw [(hC 0).1]
      exact hq0
    · rw [(hC i).1]
      exact hq i hi
    · rw [(hC i).1, (hC i).2]
      have := hu i
      split_ifs <;> omega
    · have hne : i ≠ id := by
        have := le_max_right hex.choose (id + 1)
        omega
      rw [(hC i).2, if_neg hne, sub_zero]
      exact hz i (le_trans (le_max_left _ _) hi)
    · have hext := usageSum_extend s hex.choose hz (max hex.choose (id + 1)) (le_max_left _ _)
      rw [hext, hsum] at hbal
      omega

/-- The invariant holds in every state reachable from `container_init` run on
a state that satisfies `preInit`. -/
theorem CReach_acctInv (N M : Nat) (mm : List MemRow) (s0 s : KState) (hpre : preInit s0)
    (h : CReach N M mm s0 s) : acctInv s := by
  induction h with
  | init => exact acctInv_init mm s0 hpre
  | @alloc s s' fuel id r _ hp ih => exact acctInv_alloc fuel id s r s' ih hp
  | @free s id page_index _ ih => exact acctInv_free id page_index s ih
  | @split s id q _ ih =>
    rw [container_split_state]
    exact ih

/-- When no flag is set from `B0` on, the count of set flags below any larger
bound is the count below `B0`. -/
theorem allocatedCount_extend (s : KState) (B0 : Nat)
    (h0 : ∀ j, B0 ≤ j → at_is_allocated s j = 0) :
    ∀ B, B0 ≤ B → allocatedCount B s = allocatedCount B0 s := by
  intro B hB
  induction B, hB using Nat.le_induction with
  | base => rfl
  | succ n hn ih =>
    unfold allocatedCount at ih ⊢
    rw [Finset.range_succ, Finset.filter_insert, if_neg (by rw [h0 n hn]; simp), ih]

/-- Under the invariant the sum of usage equals the count of set flags for all
bounds that cover every container with non-zero usage and every set flag. -/
theorem acctInv_balance (s : KState) (h : acctInv s) (K B : Nat)
    (hK : ∀ id, K ≤ id → (s.CONTAINER id).usage = 0)
    (hB : ∀ j, B ≤ j → at_is_allocated s j = 0) :
    usageSum K s = (allocatedCount B s : Int) := by
  have hhi : ∀ j, VM_USERHI_PI ≤ j → at_is_allocated s j = 0 := by
    intro j hj
    by_contra hc
    have := acctInv_allocated_in_range s h j hc
    omega
  obtain ⟨_, _, _, _, K0, hz, hsum⟩ := h
  have e1 := usageSum_extend s K hK (max K K0) (le_max_left _ _)
  have e2 := usageSum_extend s K0 hz (max K K0) (le_max_right _ _)
  have e3 := allocatedCount_extend s B hB (max B VM_USERHI_PI) (le_max_left _ _)
  have e4 := allocatedCount_extend s VM_USERHI_PI hhi (max B VM_USERHI_PI) (le_max_right _ _)
  rw [← e1, e2, hsum, ← e4, e3]

/-! ## An example with quota: the allocator initialised before `container_init` -/

theorem preInit_boot : preInit boot :=
  ⟨fun _ _ => ⟨Nat.zero_le _, rfl⟩, fun _ _ => ⟨rfl, rfl⟩⟩

theorem preInit_pmem_init (mm : List MemRow) (s : KState) (h : preInit s) :
    preInit (pmem_init mm s) := by
  refine ⟨fun j hj => ⟨(pmem_init_preInit mm s h).2 j hj, (pmem_init_preInit mm s h).1 j⟩,
    fun id hid => ?_⟩
  rw [(pmem_init_rest mm s).2.2]
  exact h.2 id hid

/-- Every state the allocator reaches from the boot state is one on which
`container_init` may start. -/
theorem PReach_preInit (mm : List MemRow) (s : KState) (h : PReach mm s) : preInit s := by
  induction h with
  | init => exact preInit_pmem_init mm boot preInit_boot
  | @alloc s s' fuel r _ hp ih =>
    rcases palloc_some fuel s r s' hp with ⟨_, rfl⟩ | ⟨hfree, rfl⟩
    · exact ih
    · refine ⟨fun j hj => ?_, fun id hid => ih.2 id hid⟩
      have hne : j ≠ r := by
        intro he
        subst he
        have h1 := isFree_perm hfree
        have h2 := (ih.1 j hj).1
        omega
      rw [allocState_AT, if_neg hne]
      exact ih.1 j hj
  | @free s i _ ih =>
    refine ⟨fun j hj => ?_, fun id hid => ih.2 id hid⟩
    rw [pfree_AT]
    split_ifs with he
    · subst he
      exact ⟨(ih.1 j hj).1, rfl⟩
    · exact ih.1 j hj

theorem single_row_isFree_below (s : KState) (j : Nat) (hj : j < 983040) :
    isFree (pmem_init [⟨0x0, 0xF0000000, true⟩] s) j ↔
      (VM_USERLO_PI ≤ j ∧ j < VM_USERHI_PI) := by
  unfold isFree at_is_norm at_is_allocated
  by_cases hu : VM_USERLO_PI ≤ j ∧ j < VM_USERHI_PI
  · rw [single_row_user s j hu]
    simp [hu]
  · have hk : j < VM_USERLO_PI := by
      simp only [VM_USERHI_PI_eq, VM_USERLO_PI_eq] at *
      omega
    rw [pmem_init_AT_kernel _ s j (Or.inl hk)]
    simp [hu]

theorem acctInit_quota :
    container_init_quota [⟨0x0, 0xF0000000, true⟩] (pmem_init [⟨0x0, 0xF0000000, true⟩] boot)
      = 720896 := by
  have hn : (pmem_init [⟨0x0, 0xF0000000, true⟩] boot).NUM_PAGES = 983040 := by
    rw [(pmem_init_rest _ _).1]; decide
  rw [container_init_quota_eq, hn]
  have hset : (Finset.range 983040).filter
      (fun i => isFree (pmem_init [⟨0x0, 0xF0000000, true⟩]
        (pmem_init [⟨0x0, 0xF0000000, true⟩] boot)) i)
      = Finset.Ico VM_USERLO_PI VM_USERHI_PI := by
    ext j
    rw [Finset.mem_filter, Finset.mem_range, Finset.mem_Ico]
    constructor
    · intro h
      exact (single_row_isFree_below _ j h.1).1 h.2
    · intro h
      have hj : j < 983040 := by
        have := VM_USERHI_PI_eq
        omega
      exact ⟨hj, (single_row_isFree_below _ j hj).2 h⟩
  rw [hset, Nat.card_Ico]
  decide

theorem acctInit_fields :
    acctInit.NUM_PAGES = 983040 ∧ acctInit.pointer = VM_USERLO_PI ∧
    acctInit.AT = (pmem_init [⟨0x0, 0xF0000000, true⟩]
      (pmem_init [⟨0x0, 0xF0000000, true⟩] boot)).AT ∧
    ∀ id, acctInit.CONTAINER id = if id = 0 then ⟨720896, 0, 0, 0, 1⟩ else ⟨0, 0, 0, 0, 0⟩ := by
  obtain ⟨h1, h2, h3, h4⟩ := container_init_fields [⟨0x0, 0xF0000000, true⟩]
    (pmem_init [⟨0x0, 0xF0000000, true⟩] boot)
  refine ⟨?_, ?_, h2, fun id => ?_⟩
  · show (container_init _ _).NUM_PAGES = _
    rw [h1]
    decide
  · show (container_init _ _).pointer = _
    rw [h3]
    exact (pmem_init_rest _ _).2.1
  · show (container_init _ _).CONTAINER id = _
    rw [h4, acctInit_quota, (pmem_init_rest _ _).2.2]
    by_cases hid : id = 0
    · subst hid
      rw [Function.update_same, if_pos rfl]
      have e : toInt32 720896 = 720896 := by decide
      rw [e]
    · rw [Function.update_noteq hid, if_neg hid]
      rfl

theorem acctInit_isFree : isFree acctInit 262144 := by
  unfold isFree at_is_norm at_is_allocated
  rw [acctInit_fields.2.2.1, single_row_user _ 262144 (by decide)]
  decide

/-- With quota left, a page count other than 0 and a free page at the cursor,
`container_alloc` returns the page at the cursor after one iteration. -/
theorem container_alloc_at_cursor (id : Nat) (s : KState) (k : Nat) (hk : s.pointer = k)
    (hq : (s.CONTAINER id).usage < (s.CONTAINER id).quota) (hn : s.NUM_PAGES ≠ 0)
    (hf : isFree s k) (hk0 : k ≠ 0) :
    container_alloc 1 id s = some (k,
      KState.mk s.NUM_PAGES (allocState s k).AT ((k + 1) % U32)
        (Function.update s.CONTAINER id
          ⟨(s.CONTAINER id).quota, (s.CONTAINER id).usage + 1, (s.CONTAINER id).parent,
            (s.CONTAINER id).nchildren, (s.CONTAINER id).used⟩)) := by
  unfold container_alloc pmem_alloc
  rw [if_pos hq, palloc_eq_loop _ _ hn, hk, palloc_loop_hit 0 s k hf]
  simp only [ne_eq, hk0, not_false_eq_true, if_true]
  rfl

/-- On `acctInit` the call `container_alloc(0)` returns page 262144 and leaves
the state `acctAlloc`. -/
theorem acctAlloc_eq :
    container_alloc 1 0 acctInit = some (262144, acctAlloc) ∧
    (∀ j, acctAlloc.AT j = if j = 262144 then ⟨(acctInit.AT 262144).perm, 1⟩ else acctInit.AT j) ∧
    (∀ id, acctAlloc.CONTAINER id
      = if id = 0 then ⟨720896, 1, 0, 0, 1⟩ else ⟨0, 0, 0, 0, 0⟩) := by
  have hq : (acctInit.CONTAINER 0).usage < (acctInit.CONTAINER 0).quota := by
    rw [acctInit_fields.2.2.2 0]
    decide
  have hc := container_alloc_at_cursor 0 acctInit 262144
    (by rw [acctInit_fields.2.1]; decide) hq (by rw [acctInit_fields.1]; decide)
    acctInit_isFree (by decide)
  have hrec : (⟨(acctInit.CONTAINER 0).quota, (acctInit.CONTAINER 0).usage + 1,
      (acctInit.CONTAINER 0).parent, (acctInit.CONTAINER 0).nchildren,
      (acctInit.CONTAINER 0).used⟩ : SContainer) = ⟨720896, 1, 0, 0, 1⟩ := by
    rw [acctInit_fields.2.2.2 0]
    rfl
  have e : (262144 + 1) % U32 = 262145 := by decide
  rw [hrec, e] at hc
  refine ⟨by rw [hc]; unfold acctAlloc; rfl, fun j => ?_, fun id => ?_⟩
  · unfold acctAlloc
    show (allocState acctInit 262144).AT j = _
    rw [allocState_AT]
  · unfold acctAlloc
    show Function.update acctInit.CONTAINER 0 _ id = _
    by_cases hid : id = 0
    · subst hid
      rw [Function.update_same, if_pos rfl]
    · rw [Function.update_noteq hid, if_neg hid, acctInit_fields.2.2.2 id, if_neg hid]

theorem acctAlloc_flag : at_is_allocated acctAlloc 262144 = 1 := by
  unfold at_is_allocated
  rw [acctAlloc_eq.2.1 262144, if_pos rfl]
  rfl

theorem acctAlloc_reach (N M : Nat) :
    CReach N M [⟨0x0, 0xF0000000, true⟩] (pmem_init [⟨0x0, 0xF0000000, true⟩] boot) acctAlloc :=
  CReach.alloc CReach.init acctAlloc_eq.1

theorem acctFreed_reach (N M : Nat) :
    CReach N M [⟨0x0, 0xF0000000, true⟩] (pmem_init [⟨0x0, 0xF0000000, true⟩] boot) acctFreed :=
  CReach.free 1 262144 (acctAlloc_reach N M)

/-- The containers and the flag of page 262144 after the page allocated
through container 0 was freed through container 1. -/
theorem acctFreed_eq :
    at_is_allocated acctFreed 262144 = 0 ∧
    (∀ id, acctFreed.CONTAINER id
      = if id = 0 then ⟨720896, 1, 0, 0, 1⟩
        else if id = 1 then ⟨0, -1, 0, 0, 0⟩ else ⟨0, 0, 0, 0, 0⟩) := by
  have hfl : at_is_allocated acctAlloc 262144 ≠ 0 := by
    rw [acctAlloc_flag]
    decide
  have he := container_free_eq 1 262144 acctAlloc hfl
  refine ⟨?_, fun id => ?_⟩
  · unfold acctFreed
    rw [he]
    show (if 0 < ((pfree 262144 acctAlloc).AT 262144).allocated then 1 else 0) = 0
    rw [pfree_AT, if_pos rfl]
    rfl
  · unfold acctFreed
    rw [he]
    show Function.update (pfree 262144 acctAlloc).CONTAINER 1 _ id = _
    by_cases h1 : id = 1
    · subst h1
      rw [Function.update_same, acctAlloc_eq.2.2 1]
      decide
    · rw [Function.update_noteq h1]
      show acctAlloc.CONTAINER id = _
      rw [acctAlloc_eq.2.2 id]
      by_cases h0 : id = 0
      · rw [if_pos h0, if_pos h0]
      · rw [if_neg h0, if_neg h0, if_neg h1]

/-- Under the invariant the usage of the root container is not negative. -/
theorem acctInv_usage_root (s : KState) (h : acctInv s) : 0 ≤ (s.CONTAINER 0).usage := by
  obtain ⟨_, hq0, hq, hu, K0, hz, hsum⟩ := h
  have hK := usageSum_extend s K0 hz (max K0 (0 + 1)) (le_max_left _ _)
  rw [hsum] at hK
  unfold usageSum at hK
  have hmem : 0 ∈ Finset.range (max K0 (0 + 1)) :=
    Finset.mem_range.mpr (lt_of_lt_of_le (Nat.lt_succ_self 0) (le_max_right _ _))
  have hsplit := Finset.add_sum_erase (Finset.range (max K0 (0 + 1)))
    (fun i => (s.CONTAINER i).usage) hmem
  have hle : ∑ i in (Finset.range (max K0 (0 + 1))).erase 0, (s.CONTAINER i).usage
      ≤ ∑ _i in (Finset.range (max K0 (0 + 1))).erase 0, (0 : Int) := by
    apply Finset.sum_le_sum
    intro i hi
    have hne := (Finset.mem_erase.mp hi).1
    rw [← hq i hne]
    exact hu i
  rw [Finset.sum_const_zero] at hle
  simp only at hsplit
  omega

/-! ## Usage against quota in the reachable states -/

/-- C9 (as stated, refuted): the allocator is initialised on the boot state for
the map with the single usable row `[0x0, 0xF0000000)` and `container_init`
runs on the state this leaves, which gives the root container the quota 720896;
`container_alloc(0)` then returns page 262144, and `container_free(1, 262144)`
frees it through container 1.  In the state reached the stored usage of
container 1 is -1, below 0, and `container_get_usage(1)` reports 4294967295,
above `container_get_quota(1)` = 0, while container 0 still has usage 1 with no
page allocated. -/
theorem usage_negative_after_foreign_free :
    preInit (pmem_init [⟨0x0, 0xF0000000, true⟩] boot) ∧
    acctInit = container_init [⟨0x0, 0xF0000000, true⟩]
      (pmem_init [⟨0x0, 0xF0000000, true⟩] boot) ∧
    (acctInit.CONTAINER 0).quota = 720896 ∧
    container_alloc 1 0 acctInit = some (262144, acctAlloc) ∧
    acctFreed = container_free 1 262144 acctAlloc ∧
    CReach 64 3 [⟨0x0, 0xF0000000, true⟩] (pmem_init [⟨0x0, 0xF0000000, true⟩] boot) acctFreed ∧
    (acctFreed.CONTAINER 1).usage = -1 ∧
    (acctFreed.CONTAINER 1).quota = 0 ∧
    ¬ (0 ≤ (acctFreed.CONTAINER 1).usage) ∧
    container_get_usage acctFreed 1 = 4294967295 ∧
    container_get_quota acctFreed 1 = 0 ∧
    ¬ (container_get_usage acctFreed 1 ≤ container_get_quota acctFreed 1) ∧
    (acctFreed.CONTAINER 0).usage = 1 ∧
    at_is_allocated acctFreed 262144 = 0 := by
  have h1 := acctFreed_eq.2 1
  have h0 := acctFreed_eq.2 0
  refine ⟨preInit_pmem_init _ _ preInit_boot, rfl, ?_, acctAlloc_eq.1, rfl, acctFreed_reach 64 3,
    ?_, ?_, ?_, ?_, ?_, ?_, ?_, acctFreed_eq.1⟩
  · rw [acctInit_fields.2.2.2 0]
    rfl
  · rw [h1]
    rfl
  · rw [h1]
    rfl
  · rw [h1]
    decide
  · unfold container_get_usage
    rw [h1]
    decide
  · unfold container_get_quota
    rw [h1]
    decide
  · unfold container_get_usage container_get_quota
    rw [h1]
    decide
  · rw [h0]
    rfl

/-- C9 (amended): in every state reachable from `container_init`, run on a
state in which no page outside the user range is Normal or allocated and no
container other than the root has usage or quota (the boot state and every
state the allocator reaches from it are such states), by any sequence of
`container_alloc`, `container_free` and `container_split` calls with any
container ids and page indices, every container id has stored usage at most
its stored quota; the quota is between 0 and 720896; the usage is at least
minus the root quota, and that of the root container is at least 0; and
whenever the stored usage is not negative, `container_get_usage` reports at
most what `container_get_quota` reports. -/
theorem usage_le_quota (N M : Nat) (mm : List MemRow) (s0 s : KState) (hpre : preInit s0)
    (h : CReach N M mm s0 s) (id : Nat) :
    (s.CONTAINER id).usage ≤ (s.CONTAINER id).quota ∧
    (0 ≤ (s.CONTAINER id).quota ∧ (s.CONTAINER id).quota ≤ 720896) ∧
    -(s.CONTAINER 0).quota ≤ (s.CONTAINER id).usage ∧
    0 ≤ (s.CONTAINER 0).usage ∧
    (0 ≤ (s.CONTAINER id).usage → container_get_usage s id ≤ container_get_quota s id) := by
  have hinv := CReach_acctInv N M mm s0 s hpre h
  have hlow := acctInv_usage_lower s hinv id
  have hroot := acctInv_usage_root s hinv
  obtain ⟨_, hq0, hq, hu, _⟩ := hinv
  have hqid : 0 ≤ (s.CONTAINER id).quota ∧ (s.CONTAINER id).quota ≤ 720896 := by
    by_cases hi : id = 0
    · subst hi
      exact hq0
    · rw [hq id hi]
      decide
  refine ⟨hu id, hqid, hlow, hroot, fun hnn => ?_⟩
  unfold container_get_usage container_get_quota toU32
  have := hu id
  generalize (s.CONTAINER id).usage = u at *
  generalize (s.CONTAINER id).quota = k at *
  omega

theorem usage_le_quota_witness :
    preInit (pmem_init [⟨0x0, 0xF0000000, true⟩] boot) ∧
    CReach 64 3 [⟨0x0, 0xF0000000, true⟩] (pmem_init [⟨0x0, 0xF0000000, true⟩] boot) acctFreed ∧
    (acctFreed.CONTAINER 1).usage = -1 ∧
    (acctFreed.CONTAINER 1).usage ≤ (acctFreed.CONTAINER 1).quota ∧
    -(acctFreed.CONTAINER 0).quota ≤ (acctFreed.CONTAINER 1).usage :=
  ⟨preInit_pmem_init _ _ preInit_boot, acctFreed_reach 64 3,
   by rw [acctFreed_eq.2 1]; rfl,
   (usage_le_quota 64 3 _ _ acctFreed (preInit_pmem_init _ _ preInit_boot)
      (acctFreed_reach 64 3) 1).1,
   (usage_le_quota 64 3 _ _ acctFreed (preInit_pmem_init _ _ preInit_boot)
      (acctFreed_reach 64 3) 1).2.2.1⟩

/-! ## The sum of usage against the count of allocated pages -/

/-- C21: in every state reachable from `container_init`, run on a state in
which no page outside the user range is Normal or allocated and no container
other than the root has usage or quota (the boot state and every state the
allocator reaches from it are such states), by `container_alloc`,
`container_free` and `container_split` calls with any container ids and page
indices, the usage is 0 from some container id on, every
page whose allocated flag is set lies in the user range, and the sum of usage,
as signed integers, over the container ids below any bound `K` that covers all
containers with non-zero usage equals the number of page indices with the
allocated flag set below any bound `B` that covers all set flags. -/
theorem usage_sum_eq_allocated_count (N M : Nat) (mm : List MemRow) (s0 s : KState)
    (hpre : preInit s0) (h : CReach N M mm s0 s) :
    (∃ K0, ∀ id, K0 ≤ id → (s.CONTAINER id).usage = 0) ∧
    (∀ j, at_is_allocated s j ≠ 0 → VM_USERLO_PI ≤ j ∧ j < VM_USERHI_PI) ∧
    (∀ K B, (∀ id, K ≤ id → (s.CONTAINER id).usage = 0) →
      (∀ j, B ≤ j → at_is_allocated s j = 0) →
      usageSum K s = (allocatedCount B s : Int)) := by
  have hinv := CReach_acctInv N M mm s0 s hpre h
  refine ⟨?_, acctInv_allocated_in_range s hinv, fun K B hK hB => acctInv_balance s hinv K B hK hB⟩
  obtain ⟨_, _, _, _, K0, hz, _⟩ := hinv
  exact ⟨K0, hz⟩

theorem usage_sum_eq_allocated_count_witness :
    preInit (pmem_init [⟨0x0, 0xF0000000, true⟩] boot) ∧
    CReach 64 3 [⟨0x0, 0xF0000000, true⟩] (pmem_init [⟨0x0, 0xF0000000, true⟩] boot) acctAlloc ∧
    at_is_allocated acctAlloc 262144 = 1 ∧
    (acctAlloc.CONTAINER 0).usage = 1 ∧
    usageSum 64 acctAlloc = (allocatedCount 1048576 acctAlloc : Int) ∧
    CReach 64 3 [⟨0x0, 0xF0000000, true⟩] (pmem_init [⟨0x0, 0xF0000000, true⟩] boot) acctFreed ∧
    (acctFreed.CONTAINER 0).usage = 1 ∧
    (acctFreed.CONTAINER 1).usage = -1 ∧
    usageSum 64 acctFreed = (allocatedCount 1048576 acctFreed : Int) := by
  have hpre := preInit_pmem_init [⟨0x0, 0xF0000000, true⟩] boot preInit_boot
  have hr := acctAlloc_reach 64 3
  have hf := acctFreed_reach 64 3
  refine ⟨hpre, hr, acctAlloc_flag, by rw [acctAlloc_eq.2.2 0]; rfl, ?_, hf,
    by rw [acctFreed_eq.2 0]; rfl, by rw [acctFreed_eq.2 1]; rfl, ?_⟩
  · refine (usage_sum_eq_allocated_count 64 3 _ _ acctAlloc hpre hr).2.2 64 1048576
      (fun id hid => ?_) (fun j hj => ?_)
    · rw [acctAlloc_eq.2.2 id, if_neg (by omega)]
    · by_contra hc
      have := (usage_sum_eq_allocated_count 64 3 _ _ acctAlloc hpre hr).2.1 j hc
      have h1 := VM_USERHI_PI_eq
      omega
  · refine (usage_sum_eq_allocated_count 64 3 _ _ acctFreed hpre hf).2.2 64 1048576
      (fun id hid => ?_) (fun j hj => ?_)
    · rw [acctFreed_eq.2 id, if_neg (by omega), if_neg (by omega)]
    · by_contra hc
      have := (usage_sum_eq_allocated_count 64 3 _ _ acctFreed hpre hf).2.1 j hc
      have h1 := VM_USERHI_PI_eq
      omega

end MCertiKOS
